import Mathlib

/-!
Shallow embedding of the QR content-and-generation pipeline:
the field validators and vCard encoder, the strategy-based
generation engine, and the two storage providers.  JavaScript strings are
modelled as `List Char`; thrown exceptions as the `Except.error` branch;
`Date.now()` as an explicit `now : Nat` parameter.  Definitions mirror the
TypeScript sources; the spec-side definitions used to state claims are
clearly marked.
-/

set_option maxHeartbeats 1000000

/-- JavaScript strings are modelled as lists of characters. -/
abbrev JsStr := List Char

/-- Characters matched by the regex class backslash-s (whitespace), restricted
to the ASCII range used by the inputs under consideration. -/
def jsIsSpace (c : Char) : Bool :=
  c = ' ' || c = '\t' || c = '\n' || c = '\r' || c = '\x0b' || c = '\x0c'

/-- Model of `String.prototype.trim`: remove whitespace from both ends. -/
def jsTrim (s : JsStr) : JsStr :=
  ((s.dropWhile jsIsSpace).reverse.dropWhile jsIsSpace).reverse

/-- Model of `String.prototype.toLowerCase` on the ASCII range. -/
def jsToLower (s : JsStr) : JsStr :=
  s.map Char.toLower

/-- Model of `String.prototype.split` with a single-character separator:
`"".split(c)` is `[""]`, separators at the ends produce empty pieces. -/
def jsSplit (sep : Char) : JsStr → List JsStr
  | [] => [[]]
  | c :: rest =>
    match jsSplit sep rest with
    | [] => if c = sep then [[], []] else [[c]]
    | h :: t => if c = sep then [] :: h :: t else (c :: h) :: t

/-- Result shape shared by all validators: `{valid, errors, warnings, sanitized}`. -/
structure QRValidationResult where
  valid : Bool
  errors : List JsStr
  warnings : List JsStr
  sanitized : Option JsStr := none
deriving DecidableEq, Repr

/-- Characters removed by `validatePhone` before checking
(the regex class of whitespace, hyphen, parentheses and dot, global). -/
def isPhoneStripChar (c : Char) : Bool :=
  jsIsSpace c || c = '-' || c = '(' || c = ')' || c = '.'

/-- Test of the regex `[\+\d]+` anchored at both ends: one or more characters,
each a digit or a plus sign (at any position). -/
def phoneCharsTest (s : JsStr) : Bool :=
  !s.isEmpty && s.all (fun c => c = '+' || c.isDigit)

/-- Model of `String.prototype.replace(/\+/, '')` (no global flag):
remove only the first plus sign. -/
def removeFirstPlus : JsStr → JsStr
  | [] => []
  | c :: rest => if c = '+' then rest else c :: removeFirstPlus rest

/-- Transcription of `validatePhone` from the validation module: empty input is
valid with empty sanitized value; otherwise formatting characters are stripped,
the remainder must consist of digits and plus signs, and length checks add
warnings only. -/
def validatePhone (phone : JsStr) : QRValidationResult :=
  if jsTrim phone = [] then
    { valid := true, errors := [], warnings := [], sanitized := some [] }
  else
    let trimmed := jsTrim phone
    let cleaned := trimmed.filter (fun c => !isPhoneStripChar c)
    let errors : List JsStr :=
      if phoneCharsTest cleaned then [] else ["Phone number contains invalid characters".data]
    let warnings : List JsStr :=
      if (removeFirstPlus cleaned).length < 7 then ["Phone number seems too short".data]
      else if cleaned.length > 15 then ["Phone number seems too long".data]
      else []
    { valid := errors.length = 0
      errors := errors
      warnings := warnings
      sanitized := some cleaned }

/-- Test of the email regex `[^\s@]+@[^\s@]+\.[^\s@]+` anchored at both ends:
exactly one at-sign; a nonempty local part without whitespace; a nonempty
domain part without whitespace containing a dot that is neither its first nor
its last character. -/
def emailRegexTest (s : JsStr) : Bool :=
  match jsSplit '@' s with
  | [a, b] =>
    !a.isEmpty && a.all (fun c => !jsIsSpace c) &&
    !b.isEmpty && b.all (fun c => !jsIsSpace c) &&
    ((b.drop 1).dropLast.any (fun c => c = '.'))
  | _ => false

/-- The fixed list of common email domains used for typo detection. -/
def commonDomains : List JsStr :=
  ["gmail.com".data, "yahoo.com".data, "hotmail.com".data, "outlook.com".data]

/-- One row update of the Levenshtein matrix loop.  The arguments walk the
previous row (`p0 :: p1 :: ps`) and the first string (`ac :: rest`) in
lockstep; `left` is the entry just written into the current row.  In the
source the generic three-way minimum written first is immediately overwritten
by the if/else that follows, so the effective update is: on a character match
take the diagonal entry, otherwise one plus the minimum of diagonal, left and
upper entries. -/
def levRowAux (bc : Char) : List Nat → List Char → Nat → List Nat
  | p0 :: p1 :: ps, ac :: rest, left =>
    let v := if bc = ac then p0 else min (p0 + 1) (min (left + 1) (p1 + 1))
    v :: levRowAux bc (p1 :: ps) rest v
  | _, _, _ => []

/-- The outer loop of the Levenshtein matrix computation: one row per
character of `b`, each row starting with its row index. -/
def levLoop (a : List Char) : List Nat → List Char → Nat → List Nat
  | prev, [], _ => prev
  | prev, bc :: bs, i => levLoop a ((i : Nat) :: levRowAux bc prev a i) bs (i + 1)

/-- Transcription of `levenshteinDistance` from the validation module: early
returns for empty strings, then the dynamic-programming matrix whose final
entry (row `b.length`, column `a.length`) is returned, defaulting to 0. -/
def levenshteinDistance (a b : JsStr) : Nat :=
  if a.length = 0 then b.length
  else if b.length = 0 then a.length
  else ((levLoop a (List.range (a.length + 1)) b 1).getD a.length 0)

/-- Transcription of `validateEmail` from the validation module: empty input
errors; a simplified RFC 5322 shape and a length cap give errors; a common
domain at code distance one gives a did-you-mean warning; sanitized is the
lowercased trimmed input. -/
def validateEmail (email : JsStr) : QRValidationResult :=
  if jsTrim email = [] then
    { valid := false, errors := ["Email is required".data], warnings := [] }
  else
    let trimmed := jsTrim email
    let errors : List JsStr :=
      (if emailRegexTest trimmed then [] else ["Invalid email format".data]) ++
      (if trimmed.length > 254 then ["Email is too long".data] else [])
    let domain : Option JsStr := (jsSplit '@' trimmed)[1]?
    let similarDomain : Option JsStr :=
      match domain with
      | none => none
      | some d =>
        let dl := jsToLower d
        if dl.isEmpty then none
        else commonDomains.find? (fun cd => cd ≠ dl && levenshteinDistance cd dl = 1)
    let warnings : List JsStr :=
      match similarDomain with
      | some sd =>
        ["Did you mean ".data ++ ((jsSplit '@' trimmed).headD []) ++ "@".data ++ sd ++ "?".data]
      | none => []
    { valid := errors.length = 0
      errors := errors
      warnings := warnings
      sanitized := some (jsToLower trimmed) }

/-- Address subobject of a contact. -/
structure QRContactAddress where
  street : JsStr := []
  city : JsStr := []
  state : JsStr := []
  zip : JsStr := []
  country : JsStr := []
deriving DecidableEq, Repr

/-- Contact input for the vCard encoder.  Optional string fields are modelled
as (possibly empty) strings, matching JavaScript truthiness on strings. -/
structure QRContactInfo where
  firstName : JsStr := []
  lastName : JsStr := []
  phone : JsStr := []
  email : JsStr := []
  organization : JsStr := []
  url : JsStr := []
  address : Option QRContactAddress := none
  birthday : JsStr := []
  notes : JsStr := []
deriving DecidableEq, Repr

/-- Newline used to join vCard lines. -/
def vcardJoin (lines : List JsStr) : JsStr :=
  (lines.intersperse ['\n']).flatten

/-- Transcription of `generateVCard` from the validation module: empty string
when the six name/contact fields are all empty, otherwise the fixed line
sequence, with the address line emitted only when some subfield is nonempty. -/
def generateVCard (contact : QRContactInfo) : JsStr :=
  let hasData := !contact.firstName.isEmpty || !contact.lastName.isEmpty ||
    !contact.phone.isEmpty || !contact.email.isEmpty ||
    !contact.organization.isEmpty || !contact.url.isEmpty
  if !hasData then []
  else
    let fullName := jsTrim (contact.firstName ++ " ".data ++ contact.lastName)
    let nameLines : List JsStr :=
      if !fullName.isEmpty then
        ["FN:".data ++ fullName,
         "N:".data ++ contact.lastName ++ ";".data ++ contact.firstName ++ ";;;".data]
      else []
    let orgLines : List JsStr :=
      if !contact.organization.isEmpty then ["ORG:".data ++ contact.organization] else []
    let telLines : List JsStr :=
      if !contact.phone.isEmpty then ["TEL:".data ++ contact.phone] else []
    let emailLines : List JsStr :=
      if !contact.email.isEmpty then ["EMAIL:".data ++ contact.email] else []
    let urlLines : List JsStr :=
      if !contact.url.isEmpty then ["URL:".data ++ contact.url] else []
    let adrLines : List JsStr :=
      match contact.address with
      | none => []
      | some adr =>
        if !adr.street.isEmpty || !adr.city.isEmpty || !adr.state.isEmpty ||
           !adr.zip.isEmpty || !adr.country.isEmpty then
          ["ADR:;;".data ++ adr.street ++ ";".data ++ adr.city ++ ";".data ++
            adr.state ++ ";".data ++ adr.zip ++ ";".data ++ adr.country]
        else []
    let bdayLines : List JsStr :=
      if !contact.birthday.isEmpty then ["BDAY:".data ++ contact.birthday] else []
    let noteLines : List JsStr :=
      if !contact.notes.isEmpty then ["NOTE:".data ++ contact.notes] else []
    vcardJoin
      (["BEGIN:VCARD".data, "VERSION:3.0".data] ++ nameLines ++ orgLines ++
        telLines ++ emailLines ++ urlLines ++ adrLines ++ bdayLines ++
        noteLines ++ ["END:VCARD".data])

/-- Request passed to the generation engine and its strategies. -/
structure QRGenerationOptions where
  content : JsStr
  size : Option Nat := none
  errorCorrectionLevel : Option String := none
deriving DecidableEq, Repr

/-- Metadata attached to a successful generation result. -/
structure QRGenerationMetadata where
  size : Nat
  errorCorrectionLevel : String
  contentType : Option String := none
  contentLength : Nat
deriving DecidableEq, Repr

/-- Result shape returned by strategies and by the engine. -/
structure QRGenerationResult where
  success : Bool
  data : Option String := none
  dataUrl : Option String := none
  error : Option String := none
  strategy : Option String := none
  timestamp : Nat
  metadata : Option QRGenerationMetadata := none
deriving DecidableEq, Repr

/-- A registered generation strategy: a name, a priority, and the two
behaviours the engine invokes.  A thrown exception is modelled by the
`Except.error` branch; the per-call behaviour of `isAvailable` and `generate`
is captured by these fields, quantifying over them quantifies over every
behaviour of the strategy in one engine call. -/
structure QRGeneratorStrategy where
  name : String
  priority : Int
  isAvailable : Except String Bool
  generate : QRGenerationOptions → Except String QRGenerationResult

namespace QRGeneratorFactory

/-- The ordered scan of `QRGeneratorFactory.generate`: try the strategies in
list order inside a try/catch; an unavailable or throwing strategy and a
returned failure all continue to the next; the first success is returned and
memoized.  Returns the result together with the updated
`lastSuccessfulStrategy`. -/
def tryStrategies (opts : QRGenerationOptions) (now : Nat) (memo : Option String) :
    List QRGeneratorStrategy → QRGenerationResult × Option String
  | [] =>
    ({ success := false, error := some "All generation strategies failed",
       timestamp := now }, memo)
  | s :: rest =>
    match s.isAvailable with
    | .error _ => tryStrategies opts now memo rest
    | .ok false => tryStrategies opts now memo rest
    | .ok true =>
      match s.generate opts with
      | .error _ => tryStrategies opts now memo rest
      | .ok r => if r.success then (r, some s.name) else tryStrategies opts now memo rest

/-- Transcription of `QRGeneratorFactory.generate`: empty content returns a
failure immediately; with a memoized last successful strategy that strategy is
probed first, outside any try/catch, so an exception thrown there propagates
(`Except.error`); otherwise the ordered scan runs.  The returned pair carries
the result and the updated memo. -/
def generate (strategies : List QRGeneratorStrategy) (memo : Option String)
    (opts : QRGenerationOptions) (now : Nat) :
    Except String (QRGenerationResult × Option String) :=
  if jsTrim opts.content = [] then
    .ok ({ success := false, error := some "Content is required", timestamp := now }, memo)
  else
    match memo with
    | none => .ok (tryStrategies opts now memo strategies)
    | some nm =>
      match strategies.find? (fun s => s.name = nm) with
      | none => .ok (tryStrategies opts now memo strategies)
      | some last =>
        match last.isAvailable with
        | .error e => .error e
        | .ok avail =>
          if avail then
            match last.generate opts with
            | .error e => .error e
            | .ok r =>
              if r.success then .ok (r, memo)
              else .ok (tryStrategies opts now memo strategies)
          else .ok (tryStrategies opts now memo strategies)

end QRGeneratorFactory

/-- Stable insertion step modelling the placement a stable sort gives to an
element relative to an already sorted list: walk past strictly smaller
elements, insert before the first element not strictly smaller. -/
def jsInsert (lt : α → α → Bool) (x : α) : List α → List α
  | [] => [x]
  | y :: ys => if lt y x then y :: jsInsert lt x ys else x :: y :: ys

/-- Model of `Array.prototype.sort` with a comparator inducing the strict
order `lt`: the stable sort (ties keep their original relative order), here
realised as insertion sort from the right. -/
def jsSortStable (lt : α → α → Bool) : List α → List α
  | [] => []
  | x :: xs => jsInsert lt x (jsSortStable lt xs)

/-- Comparator of `registerStrategy`: the sign of `a.priority - b.priority`,
i.e. strictly smaller priority first. -/
def priorityLt (a b : QRGeneratorStrategy) : Bool :=
  a.priority < b.priority

/-- Transcription of `QRGeneratorFactory.registerStrategy`: push the new
strategy and re-sort the whole list by ascending priority with the stable
built-in sort. -/
def registerStrategy (strategies : List QRGeneratorStrategy)
    (s : QRGeneratorStrategy) : List QRGeneratorStrategy :=
  jsSortStable priorityLt (strategies ++ [s])

/-- Strategy list obtained by a sequence of `registerStrategy` calls starting
from the empty list, in registration order. -/
def registerAll (regs : List QRGeneratorStrategy) : List QRGeneratorStrategy :=
  regs.foldl registerStrategy []

/-- Metadata of a persisted QR record. -/
structure QRRecordMetadata where
  size : Nat := 0
  errorCorrectionLevel : String := ""
  name : Option String := none
  tags : Option (List String) := none
  favorite : Option Bool := none
deriving DecidableEq, Repr

/-- A persisted QR code record. -/
structure QRCodeRecord where
  id : String
  content : String := ""
  contentType : String := ""
  dataUrl : String := ""
  createdAt : Nat := 0
  updatedAt : Nat := 0
  metadata : QRRecordMetadata := {}
deriving DecidableEq, Repr

/-- Partial record used by `update`: every field optional (TypeScript
`Partial` over the record). -/
structure QRCodeRecordPatch where
  id : Option String := none
  content : Option String := none
  contentType : Option String := none
  dataUrl : Option String := none
  createdAt : Option Nat := none
  updatedAt : Option Nat := none
  metadata : Option QRRecordMetadata := none
deriving DecidableEq, Repr

/-- Shallow merge performed by `update`: spread the existing record, spread
the patch over it, then force `id` back to the existing id and `updatedAt` to
the current time (so a patched `id` or `updatedAt` is overridden). -/
def mergeRecord (existing : QRCodeRecord) (updates : QRCodeRecordPatch)
    (now : Nat) : QRCodeRecord :=
  { id := existing.id
    content := updates.content.getD existing.content
    contentType := updates.contentType.getD existing.contentType
    dataUrl := updates.dataUrl.getD existing.dataUrl
    createdAt := updates.createdAt.getD existing.createdAt
    updatedAt := now
    metadata := updates.metadata.getD existing.metadata }

/-- Sort keys accepted by `list`. -/
inductive QRSortBy where
  | createdAt
  | updatedAt
  | name
deriving DecidableEq, Repr

/-- Sort directions accepted by `list`. -/
inductive QRSortOrder where
  | asc
  | desc
deriving DecidableEq, Repr

/-- Options of `list`; absent fields are `none`. -/
structure QRListOptions where
  limit : Option Nat := none
  offset : Option Nat := none
  sortBy : Option QRSortBy := none
  sortOrder : Option QRSortOrder := none
  contentType : Option String := none
  tags : Option (List String) := none
  favorite : Option Bool := none
deriving DecidableEq, Repr

/-- Content-type filter stage of `list`: applied only when the option is
provided and truthy (a provided empty string is skipped by the `if`). -/
def filterContentType (opts : QRListOptions) (rs : List QRCodeRecord) : List QRCodeRecord :=
  match opts.contentType with
  | some ct => if ct = "" then rs else rs.filter (fun r => r.contentType = ct)
  | none => rs

/-- Favorite filter stage of `list`: applied whenever the option is provided
(strict comparison with the record's optional flag, so records without the
flag never match). -/
def filterFavorite (opts : QRListOptions) (rs : List QRCodeRecord) : List QRCodeRecord :=
  match opts.favorite with
  | some f => rs.filter (fun r => r.metadata.favorite = some f)
  | none => rs

/-- Tag filter stage of `list`: applied when a nonempty tag list is provided;
a record matches when any requested tag occurs among its tags, and records
without tags never match. -/
def filterTags (opts : QRListOptions) (rs : List QRCodeRecord) : List QRCodeRecord :=
  match opts.tags with
  | some ts =>
    if ts.isEmpty then rs
    else rs.filter (fun r =>
      match r.metadata.tags with
      | some rts => rts.any (fun t => ts.contains t)
      | none => false)
  | none => rs

/-- Model of the JavaScript `<` comparison on strings: lexicographic order on
the code units. -/
def jsStrLt : List Char → List Char → Bool
  | [], [] => false
  | [], _ :: _ => true
  | _ :: _, [] => false
  | a :: as, b :: bs => if a < b then true else if b < a then false else jsStrLt as bs

/-- Value comparison used by the `list` comparator for the chosen key
(the name key reads `metadata.name` defaulting to the empty string). -/
def recordKeyLt (sb : QRSortBy) (a b : QRCodeRecord) : Bool :=
  match sb with
  | .createdAt => a.createdAt < b.createdAt
  | .updatedAt => a.updatedAt < b.updatedAt
  | .name => jsStrLt (a.metadata.name.getD "").data (b.metadata.name.getD "").data

/-- Strict order induced by the `list` comparator: defaults are `createdAt`
and descending; descending swaps the comparison. -/
def listLt (opts : QRListOptions) (a b : QRCodeRecord) : Bool :=
  let sb := opts.sortBy.getD .createdAt
  match opts.sortOrder.getD .desc with
  | .asc => recordKeyLt sb a b
  | .desc => recordKeyLt sb b a

/-- Pagination stage of `list`: a truthy `limit` slices
`[offset, offset+limit)`; otherwise a truthy `offset` drops that many; with
`limit` absent or 0 and `offset` absent or 0 the list is returned unchanged. -/
def paginate (opts : QRListOptions) (rs : List QRCodeRecord) : List QRCodeRecord :=
  let off := opts.offset.getD 0
  match opts.limit with
  | some l =>
    if l ≠ 0 then (rs.drop off).take l
    else if off ≠ 0 then rs.drop off else rs
  | none => if off ≠ 0 then rs.drop off else rs

/-- The shared query pipeline of `list`, identical in both providers: filter
by content type, favorite and tags, stable-sort by the chosen key, then
paginate. -/
def applyListOptions (opts : QRListOptions) (rs : List QRCodeRecord) : List QRCodeRecord :=
  paginate opts (jsSortStable (listLt opts) (filterTags opts (filterFavorite opts (filterContentType opts rs))))

namespace LocalStorageProvider

/-- State of the flat provider: the parsed record array stored under the
fixed key, in insertion order. -/
abbrev State := List QRCodeRecord

/-- Transcription of `LocalStorageProvider.save`: replace the first record
with the same id in place, or append. -/
def save (st : State) (record : QRCodeRecord) : State :=
  match st.findIdx? (fun r => r.id = record.id) with
  | some i => st.set i record
  | none => st ++ [record]

/-- Transcription of `LocalStorageProvider.get`: first record with the id, or
null. -/
def get (st : State) (id : String) : Option QRCodeRecord :=
  st.find? (fun r => r.id = id)

/-- Transcription of `LocalStorageProvider.list`: the shared pipeline over the
stored array. -/
def list (st : State) (opts : QRListOptions) : List QRCodeRecord :=
  applyListOptions opts st

/-- Transcription of `LocalStorageProvider.update`: throw when the id is
absent (the store is left unchanged), otherwise save the shallow merge. -/
def update (st : State) (id : String) (updates : QRCodeRecordPatch) (now : Nat) :
    Except String State :=
  match get st id with
  | none => .error ("Record " ++ id ++ " not found")
  | some existing => .ok (save st (mergeRecord existing updates now))

end LocalStorageProvider

namespace IndexedDBProvider

/-- State of the IndexedDB provider: the record set of the object store,
keyed by `id`. -/
abbrev State := List QRCodeRecord

/-- Ascending key order on records. -/
def idLt (a b : QRCodeRecord) : Bool :=
  jsStrLt a.id.data b.id.data

/-- Modelled from the IndexedDB API (the object store is external to the
repository): `getAll` enumerates records in ascending primary-key order,
regardless of insertion order. -/
def getAll (st : State) : List QRCodeRecord :=
  jsSortStable idLt st

/-- Transcription of `IndexedDBProvider.save`: `store.put` upserts by the
`id` key path. -/
def save (st : State) (record : QRCodeRecord) : State :=
  match st.findIdx? (fun r => r.id = record.id) with
  | some i => st.set i record
  | none => st ++ [record]

/-- Transcription of `IndexedDBProvider.get`: `store.get` by key, null when
absent. -/
def get (st : State) (id : String) : Option QRCodeRecord :=
  st.find? (fun r => r.id = id)

/-- Transcription of `IndexedDBProvider.list`: the shared pipeline over
`getAll`. -/
def list (st : State) (opts : QRListOptions) : List QRCodeRecord :=
  applyListOptions opts (getAll st)

/-- Transcription of `IndexedDBProvider.update`: same shape as the flat
provider. -/
def update (st : State) (id : String) (updates : QRCodeRecordPatch) (now : Nat) :
    Except String State :=
  match get st id with
  | none => .error ("Record " ++ id ++ " not found")
  | some existing => .ok (save st (mergeRecord existing updates now))

end IndexedDBProvider

/-- Spec-side definition: the unit-cost Levenshtein distance, written as the
canonical recursion (delete one character, insert one character, or
substitute at cost one unless the characters match). -/
def levC : List Char → List Char → Nat
  | [], bs => bs.length
  | a :: as, [] => (a :: as).length
  | x :: xs, y :: ys =>
    min (levC xs (y :: ys) + 1)
      (min (levC (x :: xs) ys + 1) (levC xs ys + (if x = y then 0 else 1)))
termination_by a b => a.length + b.length

/-- Spec-side definition: the lowercased domain part of an email as the claim
describes it, i.e. the piece after the first at-sign, lowercased (empty when
there is no at-sign). -/
def emailDomainPart (trimmed : JsStr) : JsStr :=
  jsToLower (((jsSplit '@' trimmed))[1]?.getD [])

/-- Spec-side definition, following the claim wording for pagination: after
filtering and sorting, `offset` skips that many records and a provided
`limit` caps the remainder (a provided limit of 0 therefore caps at 0). -/
def claimPaginate (opts : QRListOptions) (rs : List QRCodeRecord) : List QRCodeRecord :=
  match opts.limit with
  | some l => (rs.drop (opts.offset.getD 0)).take l
  | none => rs.drop (opts.offset.getD 0)

/-- Insertion of a newly registered element into a sorted list, after all
elements it ties with: this is where a stable re-sort places the element that
was pushed at the end. -/
def insertAfterTies (lt : α → α → Bool) (x : α) : List α → List α
  | [] => [x]
  | y :: ys => if lt x y then x :: y :: ys else y :: insertAfterTies lt x ys

/-- Row description used to verify the Levenshtein matrix loop: walking the
remaining characters of the first string while `u` accumulates the reversed
prefix already walked, the entries are the distances of the growing reversed
prefixes to `w`. -/
def specRow (w : List Char) (u : List Char) : List Char → List Nat
  | [] => []
  | x :: rest => levC (x :: u) w :: specRow w (x :: u) rest

/-- Five sample records with distinct creation times, used to check the
pagination example from the spec. -/
def sampleRecords : List QRCodeRecord :=
  [ { id := "r1", createdAt := 10 }, { id := "r2", createdAt := 20 },
    { id := "r3", createdAt := 30 }, { id := "r4", createdAt := 40 },
    { id := "r5", createdAt := 50 } ]

/-- A strategy whose availability probe throws, used to exhibit the missing
try/catch on the engine's fast path. -/
def throwingProbeStrategy : QRGeneratorStrategy :=
  { name := "boom", priority := 1
    isAvailable := .error "probe exploded"
    generate := fun _ =>
      .ok { success := true, dataUrl := some "data:img", strategy := some "boom",
            timestamp := 0 } }

/-- A strategy that is available and always returns a failure result. -/
def failingStrategy (nm : String) (p : Int) : QRGeneratorStrategy :=
  { name := nm, priority := p
    isAvailable := .ok true
    generate := fun _ =>
      .ok { success := false, error := some "render failed", timestamp := 0 } }

/-- A strategy that is available and always succeeds. -/
def succeedingStrategy (nm : String) (p : Int) : QRGeneratorStrategy :=
  { name := nm, priority := p
    isAvailable := .ok true
    generate := fun _ =>
      .ok { success := true, dataUrl := some ("url-" ++ nm), strategy := some nm,
            timestamp := 7 } }

/-- A strategy the ordered scan passes over: its probe throws, it reports
unavailable, or it is available and its generate throws or returns a failure
result. -/
def strategySkipped (opts : QRGenerationOptions) (s : QRGeneratorStrategy) : Prop :=
  (∃ e, s.isAvailable = .error e) ∨ s.isAvailable = .ok false ∨
    (s.isAvailable = .ok true ∧ ((∃ e, s.generate opts = .error e) ∨
      ∃ r, s.generate opts = .ok r ∧ r.success = false))

/-! Helper lemmas about the storage operations. -/

theorem IndexedDBProvider.save_eq_flat : IndexedDBProvider.save = LocalStorageProvider.save := rfl

theorem IndexedDBProvider.get_eq_flat : IndexedDBProvider.get = LocalStorageProvider.get := rfl

theorem IndexedDBProvider.update_eq_flat : IndexedDBProvider.update = LocalStorageProvider.update := rfl

theorem LocalStorageProvider.save_nil (r : QRCodeRecord) :
    LocalStorageProvider.save [] r = [r] := by
  simp [LocalStorageProvider.save]

theorem LocalStorageProvider.save_cons (x : QRCodeRecord) (st : List QRCodeRecord)
    (r : QRCodeRecord) :
    LocalStorageProvider.save (x :: st) r =
      if x.id = r.id then r :: st else x :: LocalStorageProvider.save st r := by
  unfold LocalStorageProvider.save
  rw [List.findIdx?_cons, List.findIdx?_succ]
  by_cases h : x.id = r.id
  · simp [h]
  · rw [if_neg h]
    simp only [h, decide_eq_true_eq, decide_eq_false_iff_not.mpr h, if_false]
    cases ho : st.findIdx? (fun r' => r'.id = r.id) with
    | none => simp [ho]
    | some i => simp [ho, List.set_cons_succ]

theorem LocalStorageProvider.get_save_self (st : List QRCodeRecord) (r : QRCodeRecord) :
    LocalStorageProvider.get (LocalStorageProvider.save st r) r.id = some r := by
  induction st with
  | nil => simp [LocalStorageProvider.save_nil, LocalStorageProvider.get]
  | cons x st ih =>
    rw [LocalStorageProvider.save_cons]
    by_cases h : x.id = r.id
    · simp [h, LocalStorageProvider.get]
    · simpa [h, LocalStorageProvider.get, List.find?_cons_of_neg] using ih

theorem LocalStorageProvider.save_idem (st : List QRCodeRecord) (r : QRCodeRecord) :
    LocalStorageProvider.save (LocalStorageProvider.save st r) r =
      LocalStorageProvider.save st r := by
  induction st with
  | nil => simp [LocalStorageProvider.save_nil, LocalStorageProvider.save_cons]
  | cons x st ih =>
    rw [LocalStorageProvider.save_cons]
    by_cases h : x.id = r.id
    · rw [if_pos h, LocalStorageProvider.save_cons]
      simp
    · rw [if_neg h, LocalStorageProvider.save_cons, if_neg h, ih]

theorem LocalStorageProvider.countP_save (st : List QRCodeRecord) (r : QRCodeRecord) :
    (LocalStorageProvider.save st r).countP (fun x => x.id = r.id) =
      if st.any (fun x => x.id = r.id) then st.countP (fun x => x.id = r.id) else 1 := by
  induction st with
  | nil => simp [LocalStorageProvider.save_nil, List.countP_cons]
  | cons x st ih =>
    rw [LocalStorageProvider.save_cons]
    by_cases h : x.id = r.id
    · rw [if_pos h]
      simp [h, List.countP_cons, List.any_cons]
    · rw [if_neg h]
      simp only [List.countP_cons, List.any_cons, decide_eq_false_iff_not.mpr h,
        Bool.false_or, ih]
      by_cases ha : st.any (fun x => x.id = r.id) <;> simp [ha]

theorem LocalStorageProvider.get_save_ne (st : List QRCodeRecord) (r : QRCodeRecord)
    (id2 : String) (h : r.id ≠ id2) :
    LocalStorageProvider.get (LocalStorageProvider.save st r) id2 =
      LocalStorageProvider.get st id2 := by
  induction st with
  | nil => simp [LocalStorageProvider.save_nil, LocalStorageProvider.get, h]
  | cons x st ih =>
    rw [LocalStorageProvider.save_cons]
    by_cases hx : x.id = r.id
    · have hx2 : ¬ x.id = id2 := by rw [hx]; exact h
      rw [if_pos hx]
      simp [LocalStorageProvider.get, List.find?_cons_of_neg, h, hx2]
    · rw [if_neg hx]
      by_cases hx2 : x.id = id2
      · simp [LocalStorageProvider.get, List.find?_cons_of_pos, hx2]
      · simpa [LocalStorageProvider.get, List.find?_cons_of_neg, hx2] using ih

/-- C9: for every record and every prior store state, `save` then `get` on the
record's id returns exactly that record; repeating `save` is idempotent; and
`save` never duplicates (it inserts exactly one copy when the id is absent and
leaves the number of records with that id unchanged when present) — for both
storage providers. -/
theorem c9_save_get_roundtrip (st : List QRCodeRecord) (r : QRCodeRecord) :
    LocalStorageProvider.get (LocalStorageProvider.save st r) r.id = some r ∧
    LocalStorageProvider.save (LocalStorageProvider.save st r) r =
      LocalStorageProvider.save st r ∧
    (LocalStorageProvider.save st r).countP (fun x => x.id = r.id) =
      (if st.any (fun x => x.id = r.id) then st.countP (fun x => x.id = r.id) else 1) ∧
    IndexedDBProvider.get (IndexedDBProvider.save st r) r.id = some r ∧
    IndexedDBProvider.save (IndexedDBProvider.save st r) r = IndexedDBProvider.save st r ∧
    (IndexedDBProvider.save st r).countP (fun x => x.id = r.id) =
      (if st.any (fun x => x.id = r.id) then st.countP (fun x => x.id = r.id) else 1) := by
  refine ⟨LocalStorageProvider.get_save_self st r, LocalStorageProvider.save_idem st r,
    LocalStorageProvider.countP_save st r, ?_, ?_, ?_⟩
  · rw [IndexedDBProvider.get_eq_flat, IndexedDBProvider.save_eq_flat]
    exact LocalStorageProvider.get_save_self st r
  · rw [IndexedDBProvider.save_eq_flat]
    exact LocalStorageProvider.save_idem st r
  · rw [IndexedDBProvider.save_eq_flat]
    exact LocalStorageProvider.countP_save st r

/-- C6, counterexample to the exact error message: on a missing id the code
throws `Record ${id} not found`, which interpolates the id and therefore is
not the literal string `Record not found` the claim states. -/
theorem c6_counterexample :
    LocalStorageProvider.update [] "abc" {} 0 = .error "Record abc not found" ∧
    "Record abc not found" ≠ "Record not found" := by
  constructor
  · rfl
  · decide

/-- C6 (amended): in both providers `update(id, partial)` on an absent id
errors with the message `Record ${id} not found` (the id interpolated, not
the literal `Record not found`), leaving the store unchanged; on a present id
the stored result is the shallow merge of the patch over the existing record
with `id` forced to the existing id and `updatedAt` forced to the current
time, unnamed fields keep their previous values, and every other id maps to
the same record as before. -/
theorem c6_update_merge_and_frame (st : List QRCodeRecord) (id : String)
    (patch : QRCodeRecordPatch) (now : Nat) :
    (LocalStorageProvider.get st id = none →
      LocalStorageProvider.update st id patch now = .error ("Record " ++ id ++ " not found") ∧
      IndexedDBProvider.update st id patch now = .error ("Record " ++ id ++ " not found")) ∧
    (∀ existing, LocalStorageProvider.get st id = some existing →
      LocalStorageProvider.update st id patch now =
        .ok (LocalStorageProvider.save st (mergeRecord existing patch now)) ∧
      IndexedDBProvider.update st id patch now =
        .ok (IndexedDBProvider.save st (mergeRecord existing patch now)) ∧
      (mergeRecord existing patch now).id = existing.id ∧
      (mergeRecord existing patch now).updatedAt = now ∧
      (mergeRecord existing patch now).content = patch.content.getD existing.content ∧
      (mergeRecord existing patch now).contentType = patch.contentType.getD existing.contentType ∧
      (mergeRecord existing patch now).dataUrl = patch.dataUrl.getD existing.dataUrl ∧
      (mergeRecord existing patch now).createdAt = patch.createdAt.getD existing.createdAt ∧
      (mergeRecord existing patch now).metadata = patch.metadata.getD existing.metadata ∧
      LocalStorageProvider.get (LocalStorageProvider.save st (mergeRecord existing patch now)) id =
        some (mergeRecord existing patch now) ∧
      (∀ id2, id2 ≠ id →
        LocalStorageProvider.get (LocalStorageProvider.save st (mergeRecord existing patch now)) id2 =
          LocalStorageProvider.get st id2)) := by
  constructor
  · intro h
    constructor
    · unfold LocalStorageProvider.update
      rw [h]
    · rw [IndexedDBProvider.update_eq_flat]
      unfold LocalStorageProvider.update
      rw [h]
  · intro existing h
    have hid : existing.id = id := by
      have := List.find?_some h
      simpa using this
    have hm : (mergeRecord existing patch now).id = existing.id := rfl
    refine ⟨?_, ?_, rfl, rfl, rfl, rfl, rfl, rfl, rfl, ?_, ?_⟩
    · unfold LocalStorageProvider.update
      rw [h]
    · rw [IndexedDBProvider.update_eq_flat, IndexedDBProvider.save_eq_flat]
      unfold LocalStorageProvider.update
      rw [h]
    · have := LocalStorageProvider.get_save_self st (mergeRecord existing patch now)
      rwa [hm, hid] at this
    · intro id2 hne
      exact LocalStorageProvider.get_save_ne st (mergeRecord existing patch now) id2
        (by rw [hm, hid]; exact fun e => hne e.symm)

/-- C6 witness: a concrete update over a one-record store, exercising the
present-id branch of the update theorem. -/
theorem c6_update_witness :
    LocalStorageProvider.get [{ id := "a", content := "old", createdAt := 3 }] "a" =
      some { id := "a", content := "old", createdAt := 3 } ∧
    LocalStorageProvider.update [{ id := "a", content := "old", createdAt := 3 }] "a"
        { content := some "new" } 9 =
      .ok [{ id := "a", content := "new", createdAt := 3, updatedAt := 9 }] := by
  constructor
  · decide
  · have h := (c6_update_merge_and_frame [{ id := "a", content := "old", createdAt := 3 }]
      "a" { content := some "new" } 9).2 { id := "a", content := "old", createdAt := 3 }
      (by decide)
    exact h.1.trans (by rfl)

/-- C10: `generateVCard` returns the empty string whenever the six
name/contact fields are empty, even if the address, birthday or notes fields
contain data — that data is silently dropped rather than emitted as a vCard
fragment. -/
theorem c10_generateVCard_blank (contact : QRContactInfo)
    (h1 : contact.firstName = []) (h2 : contact.lastName = [])
    (h3 : contact.phone = []) (h4 : contact.email = [])
    (h5 : contact.organization = []) (h6 : contact.url = []) :
    generateVCard contact = [] := by
  simp [generateVCard, h1, h2, h3, h4, h5, h6]

/-- C10 witness: a contact carrying only address, birthday and notes data
still encodes to the empty string. -/
theorem c10_generateVCard_blank_witness :
    generateVCard
        { address := some { street := "1 Main St".data, city := "Zurich".data },
          birthday := "1990-01-01".data, notes := "important".data } = [] :=
  c10_generateVCard_blank _ rfl rfl rfl rfl rfl rfl

/-- C4, counterexample: the claim says a plus sign anywhere but the leading
position is an error, yet the code's character test accepts a plus sign at
any position, so `validatePhone "123+4567"` is valid with no errors. -/
theorem c4_counterexample :
    (validatePhone "123+4567".data).valid = true ∧
    (validatePhone "123+4567".data).errors = [] := by
  constructor <;> decide

/-- C4 (amended): empty or whitespace-only input is valid with empty
sanitized value; any other input has spaces, hyphens, parentheses and dots
stripped, the result is valid exactly when the stripped string is nonempty
and consists of digits and plus signs (a plus sign is accepted at any
position, not only leading); the too-short warning fires when the stripped
string minus its first plus sign has fewer than 7 characters, otherwise the
too-long warning when the stripped string exceeds 15 characters; warnings
never make the result invalid, and sanitized is the stripped string. -/
theorem c4_validatePhone_characterisation (phone : JsStr) :
    (jsTrim phone = [] →
      validatePhone phone =
        { valid := true, errors := [], warnings := [], sanitized := some [] }) ∧
    (jsTrim phone ≠ [] →
      (validatePhone phone).sanitized =
        some ((jsTrim phone).filter (fun c => !isPhoneStripChar c)) ∧
      ((validatePhone phone).valid = true ↔
        ((jsTrim phone).filter (fun c => !isPhoneStripChar c) ≠ [] ∧
          ∀ c ∈ (jsTrim phone).filter (fun c => !isPhoneStripChar c), c = '+' ∨ c.isDigit)) ∧
      ((validatePhone phone).errors = [] ↔ (validatePhone phone).valid = true) ∧
      (validatePhone phone).warnings =
        (if (removeFirstPlus ((jsTrim phone).filter (fun c => !isPhoneStripChar c))).length < 7
          then ["Phone number seems too short".data]
          else if ((jsTrim phone).filter (fun c => !isPhoneStripChar c)).length > 15
          then ["Phone number seems too long".data]
          else [])) := by
  constructor
  · intro h
    simp [validatePhone, h]
  · intro h
    have hv : validatePhone phone =
        let trimmed := jsTrim phone
        let cleaned := trimmed.filter (fun c => !isPhoneStripChar c)
        let errors : List JsStr :=
          if phoneCharsTest cleaned then []
          else ["Phone number contains invalid characters".data]
        let warnings : List JsStr :=
          if (removeFirstPlus cleaned).length < 7 then ["Phone number seems too short".data]
          else if cleaned.length > 15 then ["Phone number seems too long".data]
          else []
        { valid := errors.length = 0, errors := errors, warnings := warnings,
          sanitized := some cleaned } := by
      rw [validatePhone, if_neg h]
    rw [hv]
    refine ⟨rfl, ?_, ?_, rfl⟩
    · by_cases hc : phoneCharsTest ((jsTrim phone).filter (fun c => !isPhoneStripChar c))
      · simp only [hc, if_true]
        simp only [phoneCharsTest, Bool.and_eq_true, Bool.not_eq_true', List.isEmpty_eq_false,
          List.all_eq_true, Bool.or_eq_true, decide_eq_true_eq, Bool.not_eq_false] at hc
        constructor
        · intro _
          refine ⟨?_, ?_⟩
          · simpa using hc.1
          · intro c hcmem
            exact hc.2 c hcmem
        · intro _; rfl
      · simp only [hc, if_false]
        constructor
        · intro hfalse
          simp at hfalse
        · intro ⟨hne, hall⟩
          exfalso
          apply hc
          simp only [phoneCharsTest, Bool.and_eq_true, Bool.not_eq_true', List.isEmpty_eq_false,
            List.all_eq_true, Bool.or_eq_true, decide_eq_true_eq, Bool.not_eq_false]
          exact ⟨by simpa using hne, hall⟩
    · by_cases hc : phoneCharsTest ((jsTrim phone).filter (fun c => !isPhoneStripChar c)) <;>
        simp [hc]

/-- C4 witness: the spec's own example, `(555) 123-4567`, through the
amended characterisation. -/
theorem c4_validatePhone_witness :
    jsTrim "(555) 123-4567".data ≠ [] ∧
    (validatePhone "(555) 123-4567".data).sanitized = some "5551234567".data := by
  refine ⟨by decide, ?_⟩
  have h := ((c4_validatePhone_characterisation "(555) 123-4567".data).2 (by decide)).1
  exact h.trans (by decide)

/-! Helper lemmas about the stable sort model. -/

theorem jsInsert_perm (lt : α → α → Bool) (x : α) (l : List α) :
    (jsInsert lt x l).Perm (x :: l) := by
  induction l with
  | nil => simp [jsInsert]
  | cons y ys ih =>
    rw [jsInsert]
    by_cases h : lt y x
    · rw [if_pos h]
      exact (ih.cons y).trans (List.Perm.swap x y ys)
    · rw [if_neg h]

theorem jsSortStable_perm (lt : α → α → Bool) (l : List α) :
    (jsSortStable lt l).Perm l := by
  induction l with
  | nil => rfl
  | cons x xs ih =>
    rw [jsSortStable]
    exact (jsInsert_perm lt x (jsSortStable lt xs)).trans (ih.cons x)

theorem jsSortStable_mem (lt : α → α → Bool) (l : List α) (x : α) :
    x ∈ jsSortStable lt l ↔ x ∈ l :=
  (jsSortStable_perm lt l).mem_iff

theorem jsInsert_pairwise (lt : α → α → Bool)
    (hasym : ∀ a b, lt a b = true → lt b a = false)
    (hweak : ∀ a b c, lt a c = true → lt a b = true ∨ lt b c = true)
    (x : α) (l : List α) (h : List.Pairwise (fun a b => lt b a = false) l) :
    List.Pairwise (fun a b => lt b a = false) (jsInsert lt x l) := by
  induction l with
  | nil => simp [jsInsert]
  | cons y ys ih =>
    rw [jsInsert]
    rcases List.pairwise_cons.mp h with ⟨hy, hys⟩
    by_cases hlt : lt y x
    · rw [if_pos hlt]
      refine List.pairwise_cons.mpr ⟨?_, ih hys⟩
      intro z hz
      rcases List.mem_cons.mp ((jsInsert_perm lt x ys).mem_iff.mp hz) with hzx | hzys
      · subst hzx
        exact hasym y z hlt
      · exact hy z hzys
    · rw [if_neg hlt]
      refine List.pairwise_cons.mpr ⟨?_, h⟩
      intro z hz
      rcases List.mem_cons.mp hz with hzy | hzys
      · subst hzy
        exact Bool.eq_false_iff.mpr hlt
      · apply Bool.eq_false_iff.mpr
        intro hzx
        rcases hweak z y x hzx with h1 | h2
        · rw [hy z hzys] at h1
          exact Bool.false_ne_true h1
        · exact hlt h2

theorem jsSortStable_pairwise (lt : α → α → Bool)
    (hasym : ∀ a b, lt a b = true → lt b a = false)
    (hweak : ∀ a b c, lt a c = true → lt a b = true ∨ lt b c = true)
    (l : List α) :
    List.Pairwise (fun a b => lt b a = false) (jsSortStable lt l) := by
  induction l with
  | nil => simp [jsSortStable]
  | cons x xs ih =>
    rw [jsSortStable]
    exact jsInsert_pairwise lt hasym hweak x _ ih

theorem jsInsert_filter_neg (lt : α → α → Bool) (p : α → Bool) (x : α) (l : List α)
    (hx : p x = false) : (jsInsert lt x l).filter p = l.filter p := by
  induction l with
  | nil => simp [jsInsert, hx]
  | cons y ys ih =>
    rw [jsInsert]
    by_cases h : lt y x
    · rw [if_pos h]
      simp only [List.filter_cons, ih]
    · rw [if_neg h]
      simp [List.filter_cons, hx]

theorem jsInsert_filter_pos (lt : α → α → Bool) (p : α → Bool) (x : α) (l : List α)
    (hx : p x = true) (hl : ∀ y ∈ l, p y = true → lt y x = false) :
    (jsInsert lt x l).filter p = x :: l.filter p := by
  induction l with
  | nil => simp [jsInsert, hx]
  | cons y ys ih =>
    rw [jsInsert]
    by_cases h : lt y x
    · rw [if_pos h]
      have hy : p y = false := by
        cases hpy : p y with
        | false => rfl
        | true =>
          have := hl y (List.mem_cons_self y ys) hpy
          rw [this] at h
          exact absurd h (by simp)
      rw [List.filter_cons, List.filter_cons]
      simp only [hy, Bool.false_eq_true, if_false]
      exact ih (fun z hz hpz => hl z (List.mem_cons_of_mem y hz) hpz)
    · rw [if_neg h]
      simp [List.filter_cons, hx]

theorem jsSortStable_filter_tie (lt : α → α → Bool) (p : α → Bool) (l : List α)
    (hp : ∀ x y, p x = true → p y = true → lt x y = false) :
    (jsSortStable lt l).filter p = l.filter p := by
  induction l with
  | nil => rfl
  | cons x xs ih =>
    rw [jsSortStable]
    cases hx : p x with
    | false =>
      rw [jsInsert_filter_neg lt p x _ hx, ih, List.filter_cons]
      simp [hx]
    | true =>
      rw [jsInsert_filter_pos lt p x _ hx, ih, List.filter_cons]
      · simp [hx]
      · intro y hy hpy
        exact hp y x hpy hx

theorem jsSortStable_of_pairwise (lt : α → α → Bool) (l : List α)
    (h : List.Pairwise (fun a b => lt b a = false) l) :
    jsSortStable lt l = l := by
  induction l with
  | nil => rfl
  | cons x xs ih =>
    rcases List.pairwise_cons.mp h with ⟨hx, hxs⟩
    rw [jsSortStable, ih hxs]
    cases xs with
    | nil => rfl
    | cons y ys =>
      have hyx : lt y x = false := hx y (List.mem_cons_self y ys)
      rw [jsInsert]
      simp [hyx]

theorem jsInsert_insertAfterTies_comm (lt : α → α → Bool)
    (htrans : ∀ a b c, lt a b = true → lt b c = true → lt a c = true)
    (hweak : ∀ a b c, lt a c = true → lt a b = true ∨ lt b c = true)
    (a s : α) (m : List α) :
    jsInsert lt a (insertAfterTies lt s m) = insertAfterTies lt s (jsInsert lt a m) := by
  induction m with
  | nil =>
    by_cases h1 : lt s a
    · simp [insertAfterTies, jsInsert, h1]
    · simp [insertAfterTies, jsInsert, h1]
  | cons y m' ih =>
    by_cases hsy : lt s y
    · by_cases hsa : lt s a
      · by_cases hya : lt y a
        · simp [insertAfterTies, jsInsert, hsy, hsa, hya]
        · simp [insertAfterTies, jsInsert, hsy, hsa, hya]
      · by_cases hya : lt y a
        · exact absurd (htrans s y a hsy hya) hsa
        · simp [insertAfterTies, jsInsert, hsy, hsa, hya]
    · by_cases hya : lt y a
      · simp [insertAfterTies, jsInsert, hsy, hya, ih]
      · by_cases hsa : lt s a
        · rcases hweak s y a hsa with h1 | h2
          · exact absurd h1 hsy
          · exact absurd h2 hya
        · simp [insertAfterTies, jsInsert, hsy, hya, hsa]

theorem jsSortStable_append_single (lt : α → α → Bool)
    (htrans : ∀ a b c, lt a b = true → lt b c = true → lt a c = true)
    (hweak : ∀ a b c, lt a c = true → lt a b = true ∨ lt b c = true)
    (l : List α) (s : α) :
    jsSortStable lt (l ++ [s]) = insertAfterTies lt s (jsSortStable lt l) := by
  induction l with
  | nil =>
    rfl
  | cons a l' ih =>
    rw [List.cons_append, jsSortStable, ih, jsSortStable]
    exact jsInsert_insertAfterTies_comm lt htrans hweak a s (jsSortStable lt l')

theorem priorityLt_trans (a b c : QRGeneratorStrategy) :
    priorityLt a b = true → priorityLt b c = true → priorityLt a c = true := by
  simp only [priorityLt, decide_eq_true_eq]
  omega

theorem priorityLt_asym (a b : QRGeneratorStrategy) :
    priorityLt a b = true → priorityLt b a = false := by
  simp only [priorityLt, decide_eq_true_eq, decide_eq_false_iff_not]
  omega

theorem priorityLt_weak (a b c : QRGeneratorStrategy) :
    priorityLt a c = true → priorityLt a b = true ∨ priorityLt b c = true := by
  simp only [priorityLt, decide_eq_true_eq]
  omega

/-- C7: the list a sequence of `registerStrategy` calls builds (starting
empty) is always exactly the stable ascending-priority sort of the
registration sequence — sorted by ascending priority with ties in
registration order — is a permutation of everything registered (registration
is additive), and the sorted invariant is preserved by every single
`registerStrategy` call, which just inserts the new strategy after its
priority ties. -/
theorem c7_registerStrategy_sorted_invariant (regs : List QRGeneratorStrategy) :
    registerAll regs = jsSortStable priorityLt regs ∧
    List.Pairwise (fun a b => priorityLt b a = false) (registerAll regs) ∧
    (registerAll regs).Perm regs ∧
    (∀ (l : List QRGeneratorStrategy) (s : QRGeneratorStrategy),
      List.Pairwise (fun a b => priorityLt b a = false) l →
      registerStrategy l s = insertAfterTies priorityLt s l ∧
      (registerStrategy l s).Perm (l ++ [s]) ∧
      List.Pairwise (fun a b => priorityLt b a = false) (registerStrategy l s)) := by
  have hmain : registerAll regs = jsSortStable priorityLt regs := by
    induction regs using List.reverseRecOn with
    | nil => rfl
    | append_singleton rs s ih =>
      unfold registerAll at ih ⊢
      rw [List.foldl_append, List.foldl_cons, List.foldl_nil, ih]
      show jsSortStable priorityLt (jsSortStable priorityLt rs ++ [s]) =
        jsSortStable priorityLt (rs ++ [s])
      rw [jsSortStable_append_single priorityLt priorityLt_trans priorityLt_weak,
        jsSortStable_append_single priorityLt priorityLt_trans priorityLt_weak,
        jsSortStable_of_pairwise priorityLt _
          (jsSortStable_pairwise priorityLt priorityLt_asym priorityLt_weak rs)]
  refine ⟨hmain, ?_, ?_, ?_⟩
  · rw [hmain]
    exact jsSortStable_pairwise priorityLt priorityLt_asym priorityLt_weak regs
  · rw [hmain]
    exact jsSortStable_perm priorityLt regs
  · intro l s hsorted
    refine ⟨?_, jsSortStable_perm priorityLt (l ++ [s]), ?_⟩
    · unfold registerStrategy
      rw [jsSortStable_append_single priorityLt priorityLt_trans priorityLt_weak,
        jsSortStable_of_pairwise priorityLt l hsorted]
    · exact jsSortStable_pairwise priorityLt priorityLt_asym priorityLt_weak (l ++ [s])

/-- C7 witness: registering three strategies with priorities 2, 1, 2 yields
the ascending-priority order with the priority-2 tie kept in registration
order, and one further registration at priority 1 lands after the existing
priority-1 strategy. -/
theorem c7_registerStrategy_witness :
    registerAll [failingStrategy "a" 2, failingStrategy "b" 1, failingStrategy "c" 2] =
      jsSortStable priorityLt
        [failingStrategy "a" 2, failingStrategy "b" 1, failingStrategy "c" 2] ∧
    registerStrategy [failingStrategy "b" 1, failingStrategy "a" 2] (failingStrategy "d" 1) =
      insertAfterTies priorityLt (failingStrategy "d" 1)
        [failingStrategy "b" 1, failingStrategy "a" 2] := by
  constructor
  · exact (c7_registerStrategy_sorted_invariant
      [failingStrategy "a" 2, failingStrategy "b" 1, failingStrategy "c" 2]).1
  · exact ((c7_registerStrategy_sorted_invariant []).2.2.2
      [failingStrategy "b" 1, failingStrategy "a" 2] (failingStrategy "d" 1)
      (by simp [List.pairwise_cons, priorityLt, failingStrategy])).1

theorem jsStrLt_trans (a b c : List Char) :
    jsStrLt a b = true → jsStrLt b c = true → jsStrLt a c = true := by
  induction a generalizing b c with
  | nil =>
    intro h1 h2
    cases b with
    | nil => simp [jsStrLt] at h1
    | cons y bs =>
      cases c with
      | nil => simp [jsStrLt] at h2
      | cons z cs => simp [jsStrLt]
  | cons x as ih =>
    intro h1 h2
    cases b with
    | nil => simp [jsStrLt] at h1
    | cons y bs =>
      cases c with
      | nil => simp [jsStrLt] at h2
      | cons z cs =>
        rw [jsStrLt] at h1 h2 ⊢
        rcases lt_trichotomy x y with hxy | hxy | hxy
        · rcases lt_trichotomy y z with hyz | hyz | hyz
          · rw [if_pos (lt_trans hxy hyz)]
          · subst hyz
            rw [if_pos hxy]
          · rw [if_neg (lt_asymm hyz), if_pos hyz] at h2
            simp at h2
        · subst hxy
          rw [if_neg (lt_irrefl x), if_neg (lt_irrefl x)] at h1
          rcases lt_trichotomy x z with hxz | hxz | hxz
          · rw [if_pos hxz]
          · subst hxz
            rw [if_neg (lt_irrefl x), if_neg (lt_irrefl x)] at h2 ⊢
            exact ih bs cs h1 h2
          · rw [if_neg (lt_asymm hxz), if_pos hxz] at h2
            simp at h2
        · rw [if_neg (lt_asymm hxy), if_pos hxy] at h1
          simp at h1

theorem jsStrLt_asym (a b : List Char) :
    jsStrLt a b = true → jsStrLt b a = false := by
  induction a generalizing b with
  | nil =>
    intro h1
    cases b with
    | nil => simp [jsStrLt] at h1
    | cons y bs => simp [jsStrLt]
  | cons x as ih =>
    intro h1
    cases b with
    | nil => simp [jsStrLt] at h1
    | cons y bs =>
      rw [jsStrLt] at h1 ⊢
      rcases lt_trichotomy x y with hxy | hxy | hxy
      · rw [if_neg (lt_asymm hxy), if_pos hxy]
      · subst hxy
        rw [if_neg (lt_irrefl x), if_neg (lt_irrefl x)] at h1 ⊢
        exact ih bs h1
      · rw [if_neg (lt_asymm hxy), if_pos hxy] at h1
        simp at h1

theorem jsStrLt_weak (a b c : List Char) :
    jsStrLt a c = true → jsStrLt a b = true ∨ jsStrLt b c = true := by
  induction a generalizing b c with
  | nil =>
    intro h1
    cases c with
    | nil => simp [jsStrLt] at h1
    | cons z cs =>
      cases b with
      | nil => right; simp [jsStrLt]
      | cons y bs => left; simp [jsStrLt]
  | cons x as ih =>
    intro h1
    cases c with
    | nil => simp [jsStrLt] at h1
    | cons z cs =>
      cases b with
      | nil => right; simp [jsStrLt]
      | cons y bs =>
        rcases lt_trichotomy x z with hxz | hxz | hxz
        · rcases lt_trichotomy x y with hxy | hxy | hxy
          · left
            rw [jsStrLt, if_pos hxy]
          · subst hxy
            right
            rw [jsStrLt, if_pos hxz]
          · right
            rw [jsStrLt, if_pos (lt_trans hxy hxz)]
        · subst hxz
          rw [jsStrLt, if_neg (lt_irrefl x), if_neg (lt_irrefl x)] at h1
          rcases lt_trichotomy x y with hxy | hxy | hxy
          · left
            rw [jsStrLt, if_pos hxy]
          · subst hxy
            rcases ih bs cs h1 with h | h
            · left
              rw [jsStrLt, if_neg (lt_irrefl x), if_neg (lt_irrefl x)]
              exact h
            · right
              rw [jsStrLt, if_neg (lt_irrefl x), if_neg (lt_irrefl x)]
              exact h
          · right
            rw [jsStrLt, if_pos hxy]
        · rw [jsStrLt, if_neg (lt_asymm hxz), if_pos hxz] at h1
          simp at h1

theorem recordKeyLt_trans (sb : QRSortBy) (a b c : QRCodeRecord) :
    recordKeyLt sb a b = true → recordKeyLt sb b c = true → recordKeyLt sb a c = true := by
  cases sb
  · intro h1 h2
    simp only [recordKeyLt, decide_eq_true_eq] at h1 h2 ⊢
    omega
  · intro h1 h2
    simp only [recordKeyLt, decide_eq_true_eq] at h1 h2 ⊢
    omega
  · exact jsStrLt_trans _ _ _

theorem recordKeyLt_asym (sb : QRSortBy) (a b : QRCodeRecord) :
    recordKeyLt sb a b = true → recordKeyLt sb b a = false := by
  cases sb
  · intro h1
    simp only [recordKeyLt, decide_eq_true_eq] at h1
    simp only [recordKeyLt, decide_eq_false_iff_not]
    omega
  · intro h1
    simp only [recordKeyLt, decide_eq_true_eq] at h1
    simp only [recordKeyLt, decide_eq_false_iff_not]
    omega
  · exact jsStrLt_asym _ _

theorem recordKeyLt_weak (sb : QRSortBy) (a b c : QRCodeRecord) :
    recordKeyLt sb a c = true → recordKeyLt sb a b = true ∨ recordKeyLt sb b c = true := by
  cases sb
  · intro h1
    simp only [recordKeyLt, decide_eq_true_eq] at h1 ⊢
    omega
  · intro h1
    simp only [recordKeyLt, decide_eq_true_eq] at h1 ⊢
    omega
  · exact jsStrLt_weak _ _ _

theorem listLt_trans (opts : QRListOptions) (a b c : QRCodeRecord) :
    listLt opts a b = true → listLt opts b c = true → listLt opts a c = true := by
  unfold listLt
  cases opts.sortOrder.getD .desc
  · exact recordKeyLt_trans _ a b c
  · intro h1 h2
    exact recordKeyLt_trans _ c b a h2 h1

theorem listLt_asym (opts : QRListOptions) (a b : QRCodeRecord) :
    listLt opts a b = true → listLt opts b a = false := by
  unfold listLt
  cases opts.sortOrder.getD .desc
  · exact recordKeyLt_asym _ a b
  · exact recordKeyLt_asym _ b a

theorem listLt_weak (opts : QRListOptions) (a b c : QRCodeRecord) :
    listLt opts a c = true → listLt opts a b = true ∨ listLt opts b c = true := by
  unfold listLt
  cases opts.sortOrder.getD .desc
  · exact recordKeyLt_weak _ a b c
  · intro h1
    exact ((recordKeyLt_weak _ c b a h1).symm.imp id id)

theorem mem_filterContentType (opts : QRListOptions) (st : List QRCodeRecord)
    (r : QRCodeRecord) :
    r ∈ filterContentType opts st ↔
      r ∈ st ∧ (∀ ct, opts.contentType = some ct → ct ≠ "" → r.contentType = ct) := by
  cases hct : opts.contentType with
  | none => simp [filterContentType, hct]
  | some ct =>
    by_cases hc : ct = ""
    · subst hc
      simp [filterContentType, hct]
    · simp only [filterContentType, hct, if_neg hc, List.mem_filter, decide_eq_true_eq,
        Option.some.injEq]
      constructor
      · intro ⟨h1, h2⟩
        exact ⟨h1, fun ct' hct' _ => hct' ▸ h2⟩
      · intro ⟨h1, h2⟩
        exact ⟨h1, h2 ct rfl hc⟩

theorem mem_filterFavorite (opts : QRListOptions) (st : List QRCodeRecord)
    (r : QRCodeRecord) :
    r ∈ filterFavorite opts st ↔
      r ∈ st ∧ (∀ f, opts.favorite = some f → r.metadata.favorite = some f) := by
  cases hf : opts.favorite with
  | none => simp [filterFavorite, hf]
  | some f =>
    simp only [filterFavorite, hf, List.mem_filter, decide_eq_true_eq, Option.some.injEq]
    constructor
    · intro ⟨h1, h2⟩
      exact ⟨h1, fun f' hf' => hf' ▸ h2⟩
    · intro ⟨h1, h2⟩
      exact ⟨h1, h2 f rfl⟩

theorem mem_filterTags (opts : QRListOptions) (st : List QRCodeRecord)
    (r : QRCodeRecord) :
    r ∈ filterTags opts st ↔
      r ∈ st ∧ (∀ ts, opts.tags = some ts → ts ≠ [] →
        ∃ rts, r.metadata.tags = some rts ∧ ∃ t ∈ ts, t ∈ rts) := by
  cases hts : opts.tags with
  | none => simp [filterTags, hts]
  | some ts =>
    by_cases he : ts.isEmpty
    · have : ts = [] := List.isEmpty_iff.mp he
      subst this
      simp [filterTags, hts, he]
    · have hne : ts ≠ [] := fun h => he (by simp [h])
      simp only [filterTags, hts]
      rw [if_neg (by simpa using he : ¬ ts.isEmpty = true)]
      simp only [List.mem_filter]
      constructor
      · intro ⟨h1, h2⟩
        refine ⟨h1, fun ts' hts' _ => ?_⟩
        cases hts'
        cases hr : r.metadata.tags with
        | none => rw [hr] at h2; simp at h2
        | some rts =>
          rw [hr] at h2
          simp only [List.any_eq_true] at h2
          rcases h2 with ⟨t, htmem, htin⟩
          exact ⟨rts, rfl, t, by simpa using htin, htmem⟩
      · intro ⟨h1, h2⟩
        rcases h2 ts rfl hne with ⟨rts, hr, t, htts, htrts⟩
        refine ⟨h1, ?_⟩
        rw [hr]
        simp only [List.any_eq_true]
        exact ⟨t, htrts, by simpa using htts⟩

/-- C5, counterexample: with `limit: 0` the falsy check treats the limit as
omitted and returns the whole (sorted, filtered) store, where the claim's
pagination (limit caps the remainder) returns nothing; and with two records
tied on `createdAt`, inserted as id `b` then id `a`, the IndexedDB provider
enumerates in ascending id order, so its tie-break is id order and not the
insertion order the claim states for both providers. -/
theorem c5_counterexample :
    LocalStorageProvider.list [{ id := "r1" }] { limit := some 0 } = [{ id := "r1" }] ∧
    claimPaginate { limit := some 0 } [{ id := "r1" }] = [] ∧
    IndexedDBProvider.list
        [{ id := "b", createdAt := 5 }, { id := "a", createdAt := 5 }] {} =
      [{ id := "a", createdAt := 5 }, { id := "b", createdAt := 5 }] ∧
    ([{ id := "a", createdAt := 5 }, { id := "b", createdAt := 5 }] :
        List QRCodeRecord) ≠
      [{ id := "b", createdAt := 5 }, { id := "a", createdAt := 5 }] := by
  refine ⟨by decide, by decide, by decide, by decide⟩

/-- C5 (amended): in both providers `list` applies the provided (truthy)
filters conjunctively — the tag filter matching when any requested tag is on
the record — then stable-sorts by the chosen key (default `createdAt`,
default descending), ties keeping the backend's enumeration order (insertion
order for the flat store, ascending id order for IndexedDB), then applies
`offset` and a nonzero `limit` after filtering and sorting, a provided
`limit` of 0 being treated like an omitted one; in particular
`list({limit:2, offset:1})` over 5 records with distinct creation times
returns the 2nd and 3rd most recent for both providers. -/
theorem c5_list_filters_sorts_paginates (st : List QRCodeRecord) (opts : QRListOptions) :
    (LocalStorageProvider.list st opts =
      paginate opts (jsSortStable (listLt opts)
        (filterTags opts (filterFavorite opts (filterContentType opts st)))) ∧
     IndexedDBProvider.list st opts =
      paginate opts (jsSortStable (listLt opts)
        (filterTags opts (filterFavorite opts (filterContentType opts (IndexedDBProvider.getAll st)))))) ∧
    (∀ r, r ∈ filterTags opts (filterFavorite opts (filterContentType opts st)) ↔
      r ∈ st ∧
      (∀ ct, opts.contentType = some ct → ct ≠ "" → r.contentType = ct) ∧
      (∀ f, opts.favorite = some f → r.metadata.favorite = some f) ∧
      (∀ ts, opts.tags = some ts → ts ≠ [] →
        ∃ rts, r.metadata.tags = some rts ∧ ∃ t ∈ ts, t ∈ rts)) ∧
    (∀ (fl : List QRCodeRecord),
      (jsSortStable (listLt opts) fl).Perm fl ∧
      List.Pairwise (fun a b => listLt opts b a = false) (jsSortStable (listLt opts) fl) ∧
      (∀ p : QRCodeRecord → Bool, (∀ x y, p x = true → p y = true → listLt opts x y = false) →
        (jsSortStable (listLt opts) fl).filter p = fl.filter p)) ∧
    (∀ (sorted : List QRCodeRecord),
      (∀ l, opts.limit = some l → l ≠ 0 →
        paginate opts sorted = (sorted.drop (opts.offset.getD 0)).take l) ∧
      (opts.limit = none ∨ opts.limit = some 0 →
        paginate opts sorted = sorted.drop (opts.offset.getD 0))) ∧
    (LocalStorageProvider.list sampleRecords { limit := some 2, offset := some 1 } =
      [{ id := "r4", createdAt := 40 }, { id := "r3", createdAt := 30 }] ∧
     IndexedDBProvider.list sampleRecords { limit := some 2, offset := some 1 } =
      [{ id := "r4", createdAt := 40 }, { id := "r3", createdAt := 30 }]) := by
  refine ⟨⟨rfl, rfl⟩, ?_, ?_, ?_, by decide, by decide⟩
  · intro r
    rw [mem_filterTags, mem_filterFavorite, mem_filterContentType]
    tauto
  · intro fl
    refine ⟨jsSortStable_perm _ fl,
      jsSortStable_pairwise _ (listLt_asym opts) (listLt_weak opts) fl,
      fun p hp => jsSortStable_filter_tie _ p fl hp⟩
  · intro sorted
    constructor
    · intro l hl hl0
      unfold paginate
      rw [hl]
      simp [hl0]
    · intro h
      unfold paginate
      rcases h with h | h
      · rw [h]
        by_cases ho : opts.offset.getD 0 ≠ 0
        · simp [ho]
        · simp only [ne_eq, not_not] at ho
          simp [ho]
      · rw [h]
        by_cases ho : opts.offset.getD 0 ≠ 0
        · simp [ho]
        · simp only [ne_eq, not_not] at ho
          simp [ho]

/-- C5 witness: the pagination characterisation applied at a concrete options
value with a nonzero limit. -/
theorem c5_list_witness :
    ({ limit := some 2, offset := some 1 } : QRListOptions).limit = some 2 ∧ (2 : Nat) ≠ 0 ∧
    paginate { limit := some 2, offset := some 1 } sampleRecords =
      (sampleRecords.drop 1).take 2 := by
  refine ⟨rfl, by decide, ?_⟩
  have h := ((c5_list_filters_sorts_paginates sampleRecords
    { limit := some 2, offset := some 1 }).2.2.2.1 sampleRecords).1 2 rfl (by decide)
  exact h

/-! Helper lemmas about the generation engine. -/

theorem tryStrategies_exhausted (opts : QRGenerationOptions) (now : Nat)
    (memo : Option String) (l : List QRGeneratorStrategy)
    (h : ∀ s ∈ l, ∀ r, s.isAvailable = .ok true → s.generate opts = .ok r →
      r.success = false) :
    QRGeneratorFactory.tryStrategies opts now memo l =
      ({ success := false, error := some "All generation strategies failed",
         timestamp := now }, memo) := by
  induction l with
  | nil => rfl
  | cons s rest ih =>
    have hrest : ∀ s ∈ rest, ∀ r, s.isAvailable = .ok true → s.generate opts = .ok r →
        r.success = false :=
      fun s' hs' => h s' (List.mem_cons_of_mem s hs')
    rw [QRGeneratorFactory.tryStrategies]
    cases hav : s.isAvailable with
    | error e => exact ih hrest
    | ok b =>
      cases b with
      | false => exact ih hrest
      | true =>
        cases hgen : s.generate opts with
        | error e => exact ih hrest
        | ok r =>
          dsimp only
          rw [h s (List.mem_cons_self s rest) r hav hgen]
          simp only [Bool.false_eq_true, if_false]
          exact ih hrest

theorem tryStrategies_memo_changed (opts : QRGenerationOptions) (now : Nat)
    (memo : Option String) (l : List QRGeneratorStrategy)
    (r : QRGenerationResult) (m : Option String)
    (h : QRGeneratorFactory.tryStrategies opts now memo l = (r, m)) (hne : m ≠ memo) :
    r.success = true ∧ ∃ s ∈ l, m = some s.name := by
  induction l with
  | nil =>
    rw [QRGeneratorFactory.tryStrategies] at h
    cases h
    exact absurd rfl hne
  | cons s rest ih =>
    rw [QRGeneratorFactory.tryStrategies] at h
    cases hav : s.isAvailable with
    | error e =>
      rw [hav] at h
      rcases ih h with ⟨h1, s', hs', h2⟩
      exact ⟨h1, s', List.mem_cons_of_mem s hs', h2⟩
    | ok b =>
      rw [hav] at h
      cases b with
      | false =>
        dsimp only at h
        rcases ih h with ⟨h1, s', hs', h2⟩
        exact ⟨h1, s', List.mem_cons_of_mem s hs', h2⟩
      | true =>
        cases hgen : s.generate opts with
        | error e =>
          rw [hgen] at h
          dsimp only at h
          rcases ih h with ⟨h1, s', hs', h2⟩
          exact ⟨h1, s', List.mem_cons_of_mem s hs', h2⟩
        | ok r' =>
          rw [hgen] at h
          dsimp only at h
          cases hsucc : r'.success with
          | false =>
            rw [hsucc] at h
            simp only [Bool.false_eq_true, if_false] at h
            rcases ih h with ⟨h1, s', hs', h2⟩
            exact ⟨h1, s', List.mem_cons_of_mem s hs', h2⟩
          | true =>
            rw [hsucc] at h
            simp only [if_true] at h
            cases h
            exact ⟨hsucc, s, List.mem_cons_self s rest, rfl⟩

theorem tryStrategies_success (opts : QRGenerationOptions) (now : Nat)
    (memo : Option String) (l : List QRGeneratorStrategy)
    (r : QRGenerationResult) (m : Option String)
    (h : QRGeneratorFactory.tryStrategies opts now memo l = (r, m))
    (hsucc : r.success = true) :
    ∃ l1 s l2, l = l1 ++ s :: l2 ∧ (∀ t ∈ l1, strategySkipped opts t) ∧
      s.isAvailable = .ok true ∧ s.generate opts = .ok r ∧ m = some s.name := by
  induction l with
  | nil =>
    rw [QRGeneratorFactory.tryStrategies] at h
    cases h
    simp at hsucc
  | cons s rest ih =>
    rw [QRGeneratorFactory.tryStrategies] at h
    cases hav : s.isAvailable with
    | error e =>
      rw [hav] at h
      rcases ih h with ⟨l1, s', l2, hsplit, hskip, h1, h2, h3⟩
      refine ⟨s :: l1, s', l2, by rw [hsplit, List.cons_append], ?_, h1, h2, h3⟩
      intro t ht
      rcases List.mem_cons.mp ht with rfl | ht
      · exact Or.inl ⟨e, hav⟩
      · exact hskip t ht
    | ok b =>
      rw [hav] at h
      cases b with
      | false =>
        dsimp only at h
        rcases ih h with ⟨l1, s', l2, hsplit, hskip, h1, h2, h3⟩
        refine ⟨s :: l1, s', l2, by rw [hsplit, List.cons_append], ?_, h1, h2, h3⟩
        intro t ht
        rcases List.mem_cons.mp ht with rfl | ht
        · exact Or.inr (Or.inl hav)
        · exact hskip t ht
      | true =>
        cases hgen : s.generate opts with
        | error e =>
          rw [hgen] at h
          dsimp only at h
          rcases ih h with ⟨l1, s', l2, hsplit, hskip, h1, h2, h3⟩
          refine ⟨s :: l1, s', l2, by rw [hsplit, List.cons_append], ?_, h1, h2, h3⟩
          intro t ht
          rcases List.mem_cons.mp ht with rfl | ht
          · exact Or.inr (Or.inr ⟨hav, Or.inl ⟨e, hgen⟩⟩)
          · exact hskip t ht
        | ok rr =>
          rw [hgen] at h
          dsimp only at h
          cases hrs : rr.success with
          | false =>
            rw [hrs] at h
            simp only [Bool.false_eq_true, if_false] at h
            rcases ih h with ⟨l1, s', l2, hsplit, hskip, h1, h2, h3⟩
            refine ⟨s :: l1, s', l2, by rw [hsplit, List.cons_append], ?_, h1, h2, h3⟩
            intro t ht
            rcases List.mem_cons.mp ht with rfl | ht
            · exact Or.inr (Or.inr ⟨hav, Or.inr ⟨rr, hgen, hrs⟩⟩)
            · exact hskip t ht
          | true =>
            rw [hrs] at h
            simp only [if_true] at h
            cases h
            exact ⟨[], s, rest, rfl, by intro t ht; simp at ht, hav, hgen, rfl⟩

/-- C1, counterexample: when the memoized last-successful strategy's
availability probe throws, the exception escapes `generate` (the fast path is
outside the try/catch), so the engine does not always return a result. -/
theorem c1_counterexample :
    QRGeneratorFactory.generate [throwingProbeStrategy] (some "boom")
      { content := "x".data } 0 = .error "probe exploded" := by
  rfl

/-- C1 (amended): `generate` never throws provided the fast path is safe:
for every request and all strategy behaviour, if the memo is unset, or names
no registered strategy, or the strategy it names neither throws from
`isAvailable` nor (when available) from `generate`, then the call returns a
result; every exception thrown during the priority-ordered scan is caught and
treated as that strategy's failure. -/
theorem c1_generate_total_when_fast_path_safe
    (strategies : List QRGeneratorStrategy) (memo : Option String)
    (opts : QRGenerationOptions) (now : Nat)
    (hfast : ∀ nm S, memo = some nm →
      strategies.find? (fun s => s.name = nm) = some S →
      (∃ b, S.isAvailable = .ok b) ∧
      (S.isAvailable = .ok true → ∃ res, S.generate opts = .ok res)) :
    ∃ out, QRGeneratorFactory.generate strategies memo opts now = .ok out := by
  unfold QRGeneratorFactory.generate
  by_cases hc : jsTrim opts.content = []
  · rw [if_pos hc]
    exact ⟨_, rfl⟩
  · rw [if_neg hc]
    cases hm : memo with
    | none => exact ⟨_, rfl⟩
    | some nm =>
      dsimp only
      cases hf : strategies.find? (fun s => s.name = nm) with
      | none => exact ⟨_, rfl⟩
      | some last =>
        dsimp only
        rcases hfast nm last hm hf with ⟨⟨b, hb⟩, hgen⟩
        rw [hb]
        dsimp only
        cases b with
        | false => exact ⟨_, rfl⟩
        | true =>
          rcases hgen hb with ⟨res, hres⟩
          rw [if_pos rfl, hres]
          dsimp only
          cases hs : res.success with
          | false => exact ⟨_, rfl⟩
          | true => exact ⟨_, rfl⟩

/-- C1 witness: with no memo set, a single failing strategy still yields a
returned result. -/
theorem c1_generate_total_witness :
    ∃ out, QRGeneratorFactory.generate [failingStrategy "f" 1] none
      { content := "x".data } 0 = .ok out :=
  c1_generate_total_when_fast_path_safe [failingStrategy "f" 1] none
    { content := "x".data } 0 (fun _ _ h => nomatch h)

/-- C2: with the memo set to the name of a registered strategy S, the fast
path probes S first: when S is available and its `generate` returns a
success, exactly that result is returned immediately — whatever the rest of
the priority order holds — and the memo is unchanged.  Moreover, across all
calls the memo changes only when a scanned strategy generated a success, and
every successful call records the succeeding strategy's name: either the
memoized strategy produced the result on the fast path (so the memo already
holds its name and is kept), or the scan walked past only skipped strategies
to the first available strategy whose generate succeeded, and the returned
memo is exactly that strategy's name. -/
theorem c2_fast_path_and_memo (strategies : List QRGeneratorStrategy) (nm : String)
    (S : QRGeneratorStrategy) (opts : QRGenerationOptions) (now : Nat)
    (r : QRGenerationResult)
    (hfind : strategies.find? (fun s => s.name = nm) = some S)
    (havail : S.isAvailable = .ok true)
    (hgen : S.generate opts = .ok r)
    (hsucc : r.success = true)
    (hcontent : jsTrim opts.content ≠ []) :
    QRGeneratorFactory.generate strategies (some nm) opts now = .ok (r, some nm) ∧
    (∀ (strategies' : List QRGeneratorStrategy) (memo' : Option String)
        (opts' : QRGenerationOptions) (now' : Nat) (r' : QRGenerationResult)
        (m' : Option String),
      QRGeneratorFactory.generate strategies' memo' opts' now' = .ok (r', m') →
      m' ≠ memo' →
      r'.success = true ∧ ∃ s ∈ strategies', m' = some s.name) ∧
    (∀ (strategies' : List QRGeneratorStrategy) (memo' : Option String)
        (opts' : QRGenerationOptions) (now' : Nat) (r' : QRGenerationResult)
        (m' : Option String),
      QRGeneratorFactory.generate strategies' memo' opts' now' = .ok (r', m') →
      r'.success = true →
      (∃ nm' S', memo' = some nm' ∧
        strategies'.find? (fun s => s.name = nm') = some S' ∧ S'.name = nm' ∧
        S'.isAvailable = .ok true ∧ S'.generate opts' = .ok r' ∧ m' = memo') ∨
      (∃ l1 s l2, strategies' = l1 ++ s :: l2 ∧ (∀ t ∈ l1, strategySkipped opts' t) ∧
        s.isAvailable = .ok true ∧ s.generate opts' = .ok r' ∧ m' = some s.name)) := by
  refine ⟨?_, ?_, ?_⟩
  · unfold QRGeneratorFactory.generate
    rw [if_neg hcontent]
    dsimp only
    rw [hfind]
    dsimp only
    rw [havail]
    dsimp only
    rw [if_pos rfl, hgen]
    dsimp only
    rw [hsucc]
    rfl
  · intro strategies' memo' opts' now' r' m' hout hne
    unfold QRGeneratorFactory.generate at hout
    by_cases hc : jsTrim opts'.content = []
    · rw [if_pos hc] at hout
      cases hout
      exact absurd rfl hne
    · rw [if_neg hc] at hout
      cases hm : memo' with
      | none =>
        rw [hm] at hout
        dsimp only at hout
        cases htry : QRGeneratorFactory.tryStrategies opts' now' none strategies' with
        | mk rr mm =>
          rw [htry] at hout
          cases hout
          exact tryStrategies_memo_changed opts' now' none strategies' r' m' htry (hm ▸ hne)
      | some nm' =>
        rw [hm] at hout
        dsimp only at hout
        cases hf : strategies'.find? (fun s => s.name = nm') with
        | none =>
          rw [hf] at hout
          dsimp only at hout
          cases htry : QRGeneratorFactory.tryStrategies opts' now' (some nm') strategies' with
          | mk rr mm =>
            rw [htry] at hout
            cases hout
            exact tryStrategies_memo_changed opts' now' (some nm') strategies' r' m' htry (hm ▸ hne)
        | some last =>
          rw [hf] at hout
          dsimp only at hout
          cases hav : last.isAvailable with
          | error e =>
            rw [hav] at hout
            cases hout
          | ok b =>
            rw [hav] at hout
            dsimp only at hout
            cases b with
            | false =>
              simp only [Bool.false_eq_true, if_false] at hout
              cases htry : QRGeneratorFactory.tryStrategies opts' now' (some nm') strategies' with
              | mk rr mm =>
                rw [htry] at hout
                cases hout
                exact tryStrategies_memo_changed opts' now' (some nm') strategies' r' m' htry (hm ▸ hne)
            | true =>
              simp only [if_true] at hout
              cases hg : last.generate opts' with
              | error e =>
                rw [hg] at hout
                cases hout
              | ok rr =>
                rw [hg] at hout
                dsimp only at hout
                cases hrs : rr.success with
                | false =>
                  rw [hrs] at hout
                  simp only [Bool.false_eq_true, if_false] at hout
                  cases htry : QRGeneratorFactory.tryStrategies opts' now' (some nm') strategies' with
                  | mk rr2 mm =>
                    rw [htry] at hout
                    cases hout
                    exact tryStrategies_memo_changed opts' now' (some nm') strategies' r' m' htry (hm ▸ hne)
                | true =>
                  rw [hrs] at hout
                  simp only [if_true] at hout
                  cases hout
                  exact absurd hm.symm hne
  · intro strategies' memo' opts' now' r' m' hout hsucc'
    unfold QRGeneratorFactory.generate at hout
    by_cases hc : jsTrim opts'.content = []
    · rw [if_pos hc] at hout
      cases hout
      simp at hsucc'
    · rw [if_neg hc] at hout
      cases hm : memo' with
      | none =>
        rw [hm] at hout
        dsimp only at hout
        cases htry : QRGeneratorFactory.tryStrategies opts' now' none strategies' with
        | mk rr mm =>
          rw [htry] at hout
          cases hout
          exact Or.inr (tryStrategies_success opts' now' none strategies' r' m' htry hsucc')
      | some nm' =>
        rw [hm] at hout
        dsimp only at hout
        cases hf : strategies'.find? (fun s => s.name = nm') with
        | none =>
          rw [hf] at hout
          dsimp only at hout
          cases htry : QRGeneratorFactory.tryStrategies opts' now' (some nm') strategies' with
          | mk rr mm =>
            rw [htry] at hout
            cases hout
            exact Or.inr (tryStrategies_success opts' now' (some nm') strategies' r' m' htry hsucc')
        | some last =>
          rw [hf] at hout
          dsimp only at hout
          cases hav : last.isAvailable with
          | error e =>
            rw [hav] at hout
            cases hout
          | ok b =>
            rw [hav] at hout
            dsimp only at hout
            cases b with
            | false =>
              simp only [Bool.false_eq_true, if_false] at hout
              cases htry : QRGeneratorFactory.tryStrategies opts' now' (some nm') strategies' with
              | mk rr mm =>
                rw [htry] at hout
                cases hout
                exact Or.inr (tryStrategies_success opts' now' (some nm') strategies' r' m' htry hsucc')
            | true =>
              simp only [if_true] at hout
              cases hg : last.generate opts' with
              | error e =>
                rw [hg] at hout
                cases hout
              | ok rr =>
                rw [hg] at hout
                dsimp only at hout
                cases hrs : rr.success with
                | false =>
                  rw [hrs] at hout
                  simp only [Bool.false_eq_true, if_false] at hout
                  cases htry : QRGeneratorFactory.tryStrategies opts' now' (some nm') strategies' with
                  | mk rr2 mm =>
                    rw [htry] at hout
                    cases hout
                    exact Or.inr (tryStrategies_success opts' now' (some nm') strategies' r' m' htry hsucc')
                | true =>
                  rw [hrs] at hout
                  simp only [if_true] at hout
                  cases hout
                  refine Or.inl ⟨nm', last, rfl, hf, ?_, hav, hg, rfl⟩
                  simpa using List.find?_some hf

/-- C2 witness: two strategies with the memo naming the higher-priority-number
one — the fast path returns its result immediately with the memo unchanged,
skipping the strategy the ordered scan would try first; and the recording
conjunct applied to a concrete memo-less call shows the scan sets the memo to
the name of the strategy that produced the success. -/
theorem c2_fast_path_witness :
    QRGeneratorFactory.generate
        [succeedingStrategy "low" 1, succeedingStrategy "memo" 2] (some "memo")
        { content := "x".data } 3 =
      .ok ({ success := true, dataUrl := some "url-memo", strategy := some "memo",
             timestamp := 7 }, some "memo") ∧
    (∃ l1 s l2, [succeedingStrategy "a" 1] = l1 ++ s :: l2 ∧
      (∀ t ∈ l1, strategySkipped { content := "x".data } t) ∧
      s.isAvailable = .ok true ∧
      s.generate { content := "x".data } =
        .ok { success := true, dataUrl := some "url-a", strategy := some "a",
              timestamp := 7 } ∧
      (some "a" : Option String) = some s.name) := by
  have hthm := c2_fast_path_and_memo
    [succeedingStrategy "low" 1, succeedingStrategy "memo" 2]
    "memo" (succeedingStrategy "memo" 2) { content := "x".data } 3
    { success := true, dataUrl := some "url-memo", strategy := some "memo", timestamp := 7 }
    rfl rfl rfl rfl (by decide)
  refine ⟨hthm.1, ?_⟩
  have h3 := hthm.2.2 [succeedingStrategy "a" 1] none { content := "x".data } 3
    { success := true, dataUrl := some "url-a", strategy := some "a", timestamp := 7 }
    (some "a") rfl rfl
  rcases h3 with ⟨nm', S', hmemo, _⟩ | hr
  · exact absurd hmemo (by simp)
  · exact hr

/-- C3, counterexample: a single registered strategy whose availability probe
throws satisfies the claim's hypothesis (no strategy returns a success —
this one throws), yet with the memo naming it the call propagates the
exception instead of returning the exhaustion failure. -/
theorem c3_counterexample :
    (∀ s ∈ [throwingProbeStrategy], ∀ r : QRGenerationResult,
      s.isAvailable = .ok true → s.generate { content := "y".data } = .ok r →
      r.success = false) ∧
    QRGeneratorFactory.generate [throwingProbeStrategy] (some "boom")
      { content := "y".data } 4 = .error "probe exploded" := by
  constructor
  · intro s hs r hav
    rcases List.mem_singleton.mp hs with rfl
    simp [throwingProbeStrategy] at hav
  · rfl

/-- C3 (amended): for every request with non-empty content, when no
registered strategy returns a success (each is unavailable, returns a
failure, or throws) and the fast path does not throw (the memo is unset,
names no strategy, or the named strategy's probe and generate return rather
than throw), `generate` returns exactly the failure result
`{success: false, error: "All generation strategies failed"}` with the memo
unchanged. -/
theorem c3_exhaustion_failure (strategies : List QRGeneratorStrategy)
    (memo : Option String) (opts : QRGenerationOptions) (now : Nat)
    (hcontent : jsTrim opts.content ≠ [])
    (hnone : ∀ s ∈ strategies, ∀ r, s.isAvailable = .ok true →
      s.generate opts = .ok r → r.success = false)
    (hfast : ∀ nm S, memo = some nm →
      strategies.find? (fun s => s.name = nm) = some S →
      (∃ b, S.isAvailable = .ok b) ∧
      (S.isAvailable = .ok true → ∃ res, S.generate opts = .ok res)) :
    QRGeneratorFactory.generate strategies memo opts now =
      .ok ({ success := false, error := some "All generation strategies failed",
             timestamp := now }, memo) := by
  unfold QRGeneratorFactory.generate
  rw [if_neg hcontent]
  cases hm : memo with
  | none =>
    dsimp only
    rw [tryStrategies_exhausted opts now none strategies hnone]
  | some nm =>
    dsimp only
    cases hf : strategies.find? (fun s => s.name = nm) with
    | none =>
      dsimp only
      rw [tryStrategies_exhausted opts now (some nm) strategies hnone]
    | some last =>
      dsimp only
      rcases hfast nm last hm hf with ⟨⟨b, hb⟩, hgen⟩
      rw [hb]
      dsimp only
      cases b with
      | false =>
        simp only [Bool.false_eq_true, if_false]
        rw [tryStrategies_exhausted opts now (some nm) strategies hnone]
      | true =>
        simp only [if_true]
        rcases hgen hb with ⟨res, hres⟩
        rw [hres]
        dsimp only
        have hmem : last ∈ strategies := List.mem_of_find?_eq_some hf
        rw [hnone last hmem res hb hres]
        simp only [Bool.false_eq_true, if_false]
        rw [tryStrategies_exhausted opts now (some nm) strategies hnone]

/-- C3 witness: the memo names the single registered strategy, which is
available but always returns a failure; the fast path probes it, falls
through, and the ordered scan exhausts, returning the exhaustion failure with
the memo unchanged. -/
theorem c3_exhaustion_witness :
    QRGeneratorFactory.generate [failingStrategy "f" 1] (some "f")
        { content := "x".data } 5 =
      .ok ({ success := false, error := some "All generation strategies failed",
             timestamp := 5 }, some "f") := by
  apply c3_exhaustion_failure
  · decide
  · intro s hs r hav hgen
    rcases List.mem_singleton.mp hs with rfl
    simp only [failingStrategy, Except.ok.injEq] at hgen
    rw [← hgen]
  · intro nm S h hf
    simp only [Option.some.injEq] at h
    subst h
    have hfr : ([failingStrategy "f" 1].find? (fun s => s.name = "f")) =
        some (failingStrategy "f" 1) := rfl
    rw [hfr] at hf
    cases hf
    exact ⟨⟨true, rfl⟩, fun _ =>
      ⟨{ success := false, error := some "render failed", timestamp := 0 }, rfl⟩⟩

/-! Helper lemmas relating the code's Levenshtein matrix loop to the
canonical recursive edit distance `levC`. -/

theorem levC_nil (b : List Char) : levC [] b = b.length := by
  rw [levC]

theorem levC_nil_right (a : List Char) : levC a [] = a.length := by
  cases a with
  | nil => rw [levC]
  | cons x xs => rw [levC]

theorem levC_cons_cons (x y : Char) (xs ys : List Char) :
    levC (x :: xs) (y :: ys) =
      min (levC xs (y :: ys) + 1)
        (min (levC (x :: xs) ys + 1) (levC xs ys + (if x = y then 0 else 1))) := by
  rw [levC]

theorem levC_comm_aux : ∀ n, ∀ a b : List Char,
    a.length + b.length ≤ n → levC a b = levC b a := by
  intro n
  induction n with
  | zero =>
    intro a b h
    have ha : a = [] := List.eq_nil_of_length_eq_zero (by omega)
    have hb : b = [] := List.eq_nil_of_length_eq_zero (by omega)
    subst ha
    subst hb
    rfl
  | succ n ih =>
    intro a b h
    cases a with
    | nil => rw [levC_nil, levC_nil_right]
    | cons x xs =>
      cases b with
      | nil => rw [levC_nil, levC_nil_right]
      | cons y ys =>
        simp only [List.length_cons] at h
        rw [levC_cons_cons, levC_cons_cons]
        rw [ih xs (y :: ys) (by simp only [List.length_cons]; omega),
          ih (x :: xs) ys (by simp only [List.length_cons]; omega),
          ih xs ys (by omega)]
        have hc : (if x = y then 0 else 1) = (if y = x then (0 : Nat) else 1) := by
          by_cases hxy : x = y
          · rw [if_pos hxy, if_pos hxy.symm]
          · rw [if_neg hxy, if_neg (fun hyx => hxy hyx.symm)]
        rw [hc]
        omega

theorem levC_comm (a b : List Char) : levC a b = levC b a :=
  levC_comm_aux (a.length + b.length) a b le_rfl

theorem levC_le_cons_right : ∀ (a b : List Char) (y : Char),
    levC a b ≤ levC a (y :: b) + 1 := by
  intro a
  induction a with
  | nil =>
    intro b y
    rw [levC_nil, levC_nil]
    simp only [List.length_cons]
    omega
  | cons x as ih =>
    intro b y
    cases b with
    | nil =>
      have h1 := ih [] y
      rw [levC_nil_right] at h1
      rw [levC_nil_right, levC_cons_cons, levC_nil_right, levC_nil_right]
      simp only [List.length_cons, List.length_nil]
      by_cases hxy : x = y
      · rw [if_pos hxy]
        omega
      · rw [if_neg hxy]
        omega
    | cons z bs =>
      have h1 := ih (z :: bs) y
      rw [levC_cons_cons, levC_cons_cons, levC_cons_cons]
      by_cases hxy : x = y
      · rw [if_pos hxy]
        by_cases hxz : x = z
        · rw [if_pos hxz]
          omega
        · rw [if_neg hxz]
          omega
      · rw [if_neg hxy]
        by_cases hxz : x = z
        · rw [if_pos hxz]
          omega
        · rw [if_neg hxz]
          omega

theorem levC_le_cons_left (a b : List Char) (x : Char) :
    levC a b ≤ levC (x :: a) b + 1 := by
  rw [levC_comm a b, levC_comm (x :: a) b]
  exact levC_le_cons_right b a x

theorem levC_cons_cons_same (x : Char) (xs ys : List Char) :
    levC (x :: xs) (x :: ys) = levC xs ys := by
  rw [levC_cons_cons, if_pos rfl]
  have h1 := levC_le_cons_right xs ys x
  have h2 := levC_le_cons_left xs ys x
  omega

theorem levC_snoc_aux : ∀ n, ∀ (as bs : List Char) (ac bc : Char),
    as.length + bs.length ≤ n →
    levC (as ++ [ac]) (bs ++ [bc]) =
      min (levC as (bs ++ [bc]) + 1)
        (min (levC (as ++ [ac]) bs + 1) (levC as bs + (if ac = bc then 0 else 1))) := by
  intro n
  induction n with
  | zero =>
    intro as bs ac bc h
    have ha : as = [] := List.eq_nil_of_length_eq_zero (by omega)
    have hb : bs = [] := List.eq_nil_of_length_eq_zero (by omega)
    subst ha
    subst hb
    simp only [List.nil_append]
    rw [levC_cons_cons]
  | succ n ih =>
    intro as bs ac bc h
    cases as with
    | nil =>
      cases bs with
      | nil =>
        simp only [List.nil_append]
        rw [levC_cons_cons]
      | cons b bs' =>
        have hI := ih [] bs' ac bc
          (by simp only [List.length_nil, List.length_cons] at h ⊢; omega)
        simp only [List.nil_append] at hI
        simp only [List.nil_append, List.cons_append]
        rw [levC_cons_cons, hI, levC_cons_cons]
        simp only [levC_nil, levC_nil_right, List.length_append, List.length_cons,
          List.length_nil]
        split_ifs <;> omega
    | cons a as' =>
      cases bs with
      | nil =>
        have hI := ih as' [] ac bc
          (by simp only [List.length_nil, List.length_cons] at h ⊢; omega)
        simp only [List.nil_append] at hI
        simp only [List.nil_append, List.cons_append]
        rw [levC_cons_cons, hI, levC_cons_cons]
        simp only [levC_nil, levC_nil_right, List.length_append, List.length_cons,
          List.length_nil]
        split_ifs <;> omega
      | cons b bs' =>
        simp only [List.length_cons] at h
        have hI1 := ih as' (b :: bs') ac bc (by simp only [List.length_cons]; omega)
        have hI2 := ih (a :: as') bs' ac bc (by simp only [List.length_cons]; omega)
        have hI3 := ih as' bs' ac bc (by omega)
        simp only [List.cons_append] at hI1 hI2 hI3 ⊢
        rw [levC_cons_cons]
        rw [hI1]
        rw [hI2]
        rw [hI3]
        rw [levC_cons_cons a b as' (bs' ++ [bc])]
        rw [levC_cons_cons a b (as' ++ [ac]) bs']
        rw [levC_cons_cons a b as' bs']
        rw [le_antisymm_iff]
        constructor
        · simp only [le_min_iff, min_le_iff]
          split_ifs <;> omega
        · simp only [le_min_iff, min_le_iff]
          split_ifs <;> omega

theorem levC_snoc (as bs : List Char) (ac bc : Char) :
    levC (as ++ [ac]) (bs ++ [bc]) =
      min (levC as (bs ++ [bc]) + 1)
        (min (levC (as ++ [ac]) bs + 1) (levC as bs + (if ac = bc then 0 else 1))) :=
  levC_snoc_aux (as.length + bs.length) as bs ac bc le_rfl

theorem levC_reverse_aux : ∀ n, ∀ a b : List Char,
    a.length + b.length ≤ n → levC a.reverse b.reverse = levC a b := by
  intro n
  induction n with
  | zero =>
    intro a b h
    have ha : a = [] := List.eq_nil_of_length_eq_zero (by omega)
    have hb : b = [] := List.eq_nil_of_length_eq_zero (by omega)
    subst ha
    subst hb
    rfl
  | succ n ih =>
    intro a b h
    cases a with
    | nil =>
      rw [List.reverse_nil, levC_nil, levC_nil, List.length_reverse]
    | cons x xs =>
      cases b with
      | nil =>
        rw [List.reverse_nil, levC_nil_right, levC_nil_right, List.length_reverse]
      | cons y ys =>
        simp only [List.length_cons] at h
        rw [List.reverse_cons, List.reverse_cons, levC_snoc]
        rw [← List.reverse_cons y ys]
        rw [← List.reverse_cons x xs]
        rw [ih xs (y :: ys) (by simp only [List.length_cons]; omega)]
        rw [ih (x :: xs) ys (by simp only [List.length_cons]; omega)]
        rw [ih xs ys (by omega)]
        rw [levC_cons_cons]

theorem levC_reverse (a b : List Char) : levC a.reverse b.reverse = levC a b :=
  levC_reverse_aux (a.length + b.length) a b le_rfl

theorem specRow_nil_w : ∀ (acs u : List Char),
    specRow [] u acs = List.range' (u.length + 1) acs.length := by
  intro acs
  induction acs with
  | nil => intro u; rfl
  | cons x rest ih =>
    intro u
    rw [specRow, levC_nil_right, ih (x :: u)]
    simp only [List.length_cons]
    rw [List.range'_succ]

theorem levRowAux_spec : ∀ (acs u w : List Char) (bc : Char),
    levRowAux bc (levC u w :: specRow w u acs) acs (levC u (bc :: w)) =
      specRow (bc :: w) u acs := by
  intro acs
  induction acs with
  | nil =>
    intro u w bc
    rfl
  | cons x rest ih =>
    intro u w bc
    rw [specRow, specRow, levRowAux]
    have hv : (if bc = x then levC u w
        else min (levC u w + 1) (min (levC u (bc :: w) + 1) (levC (x :: u) w + 1))) =
        levC (x :: u) (bc :: w) := by
      by_cases hbc : bc = x
      · rw [if_pos hbc, hbc]
        rw [show levC (x :: u) (x :: w) = levC u w from levC_cons_cons_same x u w]
      · rw [if_neg hbc]
        rw [levC_cons_cons x bc u w]
        rw [if_neg (fun hxbc => hbc hxbc.symm)]
        omega
    rw [hv, ih (x :: u) w bc]

theorem levLoop_spec (a : List Char) : ∀ (brest bp : List Char),
    levLoop a (bp.length :: specRow bp.reverse [] a) brest (bp.length + 1) =
      (bp ++ brest).length :: specRow (bp ++ brest).reverse [] a := by
  intro brest
  induction brest with
  | nil =>
    intro bp
    rw [levLoop, List.append_nil]
  | cons bc bs ih =>
    intro bp
    rw [levLoop]
    have hrow : (bp.length + 1 : Nat) :: levRowAux bc (bp.length :: specRow bp.reverse [] a) a (bp.length + 1) =
        (bp ++ [bc]).length :: specRow ((bp ++ [bc]).reverse) [] a := by
      have h0 : (bp.length : Nat) = levC [] bp.reverse := by
        rw [levC_nil, List.length_reverse]
      have h1 : (bp.length + 1 : Nat) = levC [] (bc :: bp.reverse) := by
        rw [levC_nil, List.length_cons, List.length_reverse]
      have hrev : (bp ++ [bc]).reverse = bc :: bp.reverse := by
        rw [List.reverse_append, List.reverse_cons, List.reverse_nil, List.nil_append,
          List.singleton_append]
      calc (bp.length + 1 : Nat) :: levRowAux bc (bp.length :: specRow bp.reverse [] a) a (bp.length + 1)
          = levC [] (bc :: bp.reverse) ::
              levRowAux bc (levC [] bp.reverse :: specRow bp.reverse [] a) a
                (levC [] (bc :: bp.reverse)) := by rw [← h0, ← h1]
        _ = levC [] (bc :: bp.reverse) :: specRow (bc :: bp.reverse) [] a := by
              rw [levRowAux_spec a [] bp.reverse bc]
        _ = (bp ++ [bc]).length :: specRow ((bp ++ [bc]).reverse) [] a := by
              rw [hrev, ← h1, List.length_append, List.length_cons, List.length_nil]
    rw [hrow]
    have hlen : (bp ++ [bc]).length + 1 = bp.length + 1 + 1 := by
      rw [List.length_append, List.length_cons, List.length_nil]
    rw [← hlen]
    rw [ih (bp ++ [bc])]
    rw [List.append_assoc, List.singleton_append]

theorem specRow_getD_last : ∀ (acs u w : List Char), acs ≠ [] →
    (specRow w u acs).getD (acs.length - 1) 0 = levC (acs.reverse ++ u) w := by
  intro acs
  induction acs with
  | nil => intro u w h; exact absurd rfl h
  | cons x rest ih =>
    intro u w _
    cases rest with
    | nil =>
      rw [specRow, specRow]
      simp only [List.length_cons, List.length_nil, List.reverse_cons, List.reverse_nil,
        List.nil_append, List.singleton_append]
      rw [List.getD_cons_zero]
    | cons r rs =>
      rw [specRow]
      have hne : (r :: rs) ≠ [] := List.cons_ne_nil r rs
      have hlen : (x :: r :: rs).length - 1 = ((r :: rs).length - 1) + 1 := by
        simp only [List.length_cons]
        omega
      rw [hlen, List.getD_cons_succ, ih (x :: u) w hne]
      rw [List.reverse_cons x (r :: rs), List.append_assoc, List.singleton_append]

theorem levenshteinDistance_eq_levC (a b : JsStr) :
    levenshteinDistance a b = levC a b := by
  unfold levenshteinDistance
  by_cases ha : a.length = 0
  · rw [if_pos ha]
    have : a = [] := List.eq_nil_of_length_eq_zero ha
    subst this
    rw [levC_nil]
  · rw [if_neg ha]
    by_cases hb : b.length = 0
    · rw [if_pos hb]
      have : b = [] := List.eq_nil_of_length_eq_zero hb
      subst this
      rw [levC_nil_right]
    · rw [if_neg hb]
      have hrow0 : List.range (a.length + 1) =
          (([] : List Char)).length :: specRow (([] : List Char)).reverse [] a := by
        rw [List.reverse_nil, specRow_nil_w a [], List.range_eq_range', List.range'_succ]
        rfl
      rw [hrow0]
      have hloop := levLoop_spec a b []
      simp only [List.length_nil, List.nil_append] at hloop ⊢
      rw [show (0 : Nat) + 1 = 1 from rfl] at hloop
      rw [hloop]
      obtain ⟨k, hk⟩ : ∃ k, a.length = k + 1 := ⟨a.length - 1, by omega⟩
      rw [hk, List.getD_cons_succ]
      have hne : a ≠ [] := fun h => ha (by rw [h]; rfl)
      have hget := specRow_getD_last a [] b.reverse hne
      rw [List.append_nil] at hget
      have hk2 : a.length - 1 = k := by omega
      rw [hk2] at hget
      rw [hget, levC_reverse]

theorem commonDomains_no_length_one :
    ∀ cd ∈ commonDomains, cd.length ≠ 1 := by
  intro cd hmem
  simp only [commonDomains, List.mem_cons, List.mem_singleton, List.not_mem_nil] at hmem
  rcases hmem with rfl | rfl | rfl | hmem
  · decide
  · decide
  · decide
  · rcases hmem with rfl | hmem
    · decide
    · simp at hmem

/-- C8: for every email input that is non-empty after trimming, `validateEmail`
emits a did-you-mean warning exactly when the lowercased domain part (the
piece after the first at-sign, lowercased) differs from some entry of the
fixed common-domain list and has unit-cost Levenshtein distance (insert,
delete, substitute) exactly 1 to it; and the sanitized value is always the
lowercased trimmed input, warning or not. -/
theorem c8_email_typo_warning (email : JsStr) (h : jsTrim email ≠ []) :
    (((validateEmail email).warnings ≠ []) ↔
      ∃ cd ∈ commonDomains, cd ≠ emailDomainPart (jsTrim email) ∧
        levC cd (emailDomainPart (jsTrim email)) = 1) ∧
    (validateEmail email).sanitized = some (jsToLower (jsTrim email)) := by
  have hv : validateEmail email =
      { valid :=
          ((if emailRegexTest (jsTrim email) then [] else ["Invalid email format".data]) ++
            (if (jsTrim email).length > 254 then ["Email is too long".data] else [])).length = 0,
        errors :=
          (if emailRegexTest (jsTrim email) then [] else ["Invalid email format".data]) ++
            (if (jsTrim email).length > 254 then ["Email is too long".data] else []),
        warnings :=
          match (match (jsSplit '@' (jsTrim email))[1]? with
            | none => none
            | some d =>
              if (jsToLower d).isEmpty then none
              else commonDomains.find?
                (fun cd => cd ≠ jsToLower d && levenshteinDistance cd (jsToLower d) = 1)) with
          | some sd =>
            ["Did you mean ".data ++ ((jsSplit '@' (jsTrim email)).headD []) ++ "@".data ++
              sd ++ "?".data]
          | none => [],
        sanitized := some (jsToLower (jsTrim email)) } := by
    rw [validateEmail, if_neg h]
  refine ⟨?_, by rw [hv]⟩
  rw [hv]
  cases hd : (jsSplit '@' (jsTrim email))[1]? with
  | none =>
    have hdp : emailDomainPart (jsTrim email) = [] := by
      rw [emailDomainPart, hd]
      rfl
    rw [hdp]
    dsimp only
    constructor
    · intro hfalse
      exact absurd rfl hfalse
    · intro ⟨cd, hmem, _, hlev⟩
      rw [levC_nil_right] at hlev
      exact absurd hlev (commonDomains_no_length_one cd hmem)
  | some d =>
    have hdp : emailDomainPart (jsTrim email) = jsToLower d := by
      rw [emailDomainPart, hd]
      rfl
    rw [hdp]
    dsimp only
    by_cases hdl : (jsToLower d).isEmpty
    · rw [if_pos hdl]
      have hdnil : jsToLower d = [] := List.isEmpty_iff.mp hdl
      rw [hdnil]
      dsimp only
      constructor
      · intro hfalse
        exact absurd rfl hfalse
      · intro ⟨cd, hmem, _, hlev⟩
        rw [levC_nil_right] at hlev
        exact absurd hlev (commonDomains_no_length_one cd hmem)
    · rw [if_neg hdl]
      cases hf : commonDomains.find?
          (fun cd => cd ≠ jsToLower d && levenshteinDistance cd (jsToLower d) = 1) with
      | none =>
        dsimp only
        constructor
        · intro hfalse
          exact absurd rfl hfalse
        · intro ⟨cd, hmem, hne, hlev⟩
          have := List.find?_eq_none.mp hf cd hmem
          simp only [Bool.and_eq_true, bne_iff_ne, ne_eq, decide_eq_true_eq, not_and] at this
          rw [levenshteinDistance_eq_levC] at this
          exact absurd hlev (this (by simpa using hne))
      | some sd =>
        dsimp only
        constructor
        · intro _
          have hsdmem : sd ∈ commonDomains := List.mem_of_find?_eq_some hf
          have hp := List.find?_some hf
          simp only [Bool.and_eq_true, decide_eq_true_eq] at hp
          rw [levenshteinDistance_eq_levC] at hp
          exact ⟨sd, hsdmem, by simpa using hp.1, hp.2⟩
        · intro _
          simp

/-- C8 witness: `User@gmai.com` (one deletion away from `gmail.com`) gets the
warning, and via the characterisation its lowercased domain is at canonical
edit distance 1 from a common domain; the sanitized value is the lowercased
trimmed input. -/
theorem c8_email_typo_witness :
    (validateEmail "User@gmai.com".data).warnings ≠ [] ∧
    (∃ cd ∈ commonDomains, cd ≠ emailDomainPart (jsTrim "User@gmai.com".data) ∧
      levC cd (emailDomainPart (jsTrim "User@gmai.com".data)) = 1) ∧
    (validateEmail "User@gmai.com".data).sanitized =
      some (jsToLower (jsTrim "User@gmai.com".data)) := by
  have h := c8_email_typo_warning "User@gmai.com".data (by decide)
  exact ⟨by decide, h.1.mp (by decide), h.2⟩
